import Mathlib

/-!
# Lus runtime core: a shallow embedding with verified properties

This file embeds, in Lean 4, the parts of the Lus runtime that its
specification makes claims about:

* the mailbox value serializer and deserializer of `lworkerlib.c`
  (`serialize_value` / `deserialize_value`),
* the pledge permission store of `lpledge.c` (`lus_pledge`,
  `lus_setpledge`, `luaB_pledge`, `luaP_copypledges`) together with the
  one granter registered in the repository, `fs_granter` of `lfslib.c`,
* the detached-coroutine scheduler of `events/lev.c`
  (`scheduler_add_pending` / `scheduler_poll`),
* the standalone bundle reader and writer of `lbundle.c`
  (`lusB_buildindex` / `lusB_load` / `lusB_getfile`),
* the multi-worker receive scan of `lworkerlib.c` (`lib_receive`).

Modelling conventions: C byte buffers are `List Nat` with every element
below 256; C strings are `List Char`; `lua_Integer` (a 64-bit machine
integer) is `Int` serialized as 8 little-endian two's-complement bytes;
`lua_Number` (a C double) is carried as its 8-byte host representation,
since only the bit pattern ever crosses a mailbox; monotonic time and
deadlines use `Int` (the claims under study depend only on the order
structure of time); fallible C paths (`luaL_error`, `NULL` returns)
become `Option` or `Except`.  External collaborators (the event backend,
the VM interpreter, the platform glob matcher) enter as explicit inputs:
the backend's `wait` batch and the thread pool's `done` flags are
arguments of `scheduler_poll`, the behaviour of a coroutine across
successive `lua_resume` calls is a finite script of outcomes, and the
glob matcher is a function parameter.

Definitions come first, then the theorems about them.
-/

namespace Lus

/-! ## Little-endian byte strings

`read_u16`/`read_u32`/`write_u16`/`write_u32` in `lbundle.c` and the raw
`memcpy` of integers in `lworkerlib.c` all move fixed-width little-endian
words; `toLE` and `fromLE` are the common core. -/

/-- `k` little-endian bytes of `n` (the value is taken modulo `256^k`,
exactly as a C store into a `k`-byte buffer would). -/
def toLE : Nat → Nat → List Nat
  | 0, _ => []
  | k + 1, n => (n % 256) :: toLE k (n / 256)

/-- Read a little-endian byte string back into a number. -/
def fromLE : List Nat → Nat
  | [] => 0
  | b :: bs => b + 256 * fromLE bs

/-- The 8 little-endian bytes of a `lua_Integer` value (64-bit two's
complement, as `serbuf_write(L, b, &i, sizeof(i))` emits on a
little-endian 64-bit host). -/
def intToBytes8 (i : Int) : List Nat :=
  toLE 8 (i.emod (2 ^ 64)).toNat

/-- Reinterpret an unsigned 64-bit value as a signed `lua_Integer`, as the
`deser_read(b, &i, sizeof(i))` load in `deserialize_value` does. -/
def toSigned64 (n : Nat) : Int :=
  if n < 2 ^ 63 then (n : Int) else (n : Int) - 2 ^ 64

/-! ## Mailbox serialization (`lworkerlib.c`)

A Lua value, as far as the mailbox serializer can see one.  `lua_next`
enumerates a table as a sequence of key-value pairs, so a table is
carried as that sequence (`LuaFields`).  A C double is represented by
its 8 host bytes (`number bits`): `serialize_value` copies those bytes
verbatim and `deserialize_value` copies them back, so the bit pattern is
the whole story.  `func`, `thread` and `userdata` stand for the
`LUA_TFUNCTION`, `LUA_TTHREAD` and userdata/light-userdata types that
fall into the serializer's `default:` arm. -/

mutual
inductive LuaValue where
  | nil
  | boolean (b : Bool)
  | integer (i : Int)
  | number (bits : List Nat)
  | str (s : List Nat)
  | table (fields : LuaFields)
  | func
  | thread
  | userdata
deriving DecidableEq, Repr

inductive LuaFields where
  | fnil
  | fcons (k v : LuaValue) (rest : LuaFields)
deriving DecidableEq, Repr
end

/-- Number of key-value pairs, as counted by the first `lua_next` loop of
`serialize_table`. -/
def LuaFields.count : LuaFields → Nat
  | .fnil => 0
  | .fcons _ _ rest => 1 + rest.count

/-- Serialization format tags (`SER_NIL` .. `SER_TABLE`). -/
def SER_NIL : Nat := 0
def SER_BOOL : Nat := 1
def SER_INT : Nat := 2
def SER_NUM : Nat := 3
def SER_STRING : Nat := 4
def SER_TABLE : Nat := 5

mutual
/-- `serialize_value(L, idx, b, depth)` of `lworkerlib.c`: emit one value
into the serialization buffer; `none` models the `luaL_error` raised for
a function, thread or userdata, or for over-deep table nesting.  The
table arm is `serialize_table(L, idx, b, depth)` inlined: the depth
guard, the `SER_TABLE` tag, the entry count (written as a
`lua_Integer`), then the pairs. -/
def serialize_value : LuaValue → Nat → Option (List Nat)
  | .nil, _ => some [SER_NIL]
  | .boolean b, _ => some [SER_BOOL, if b then 1 else 0]
  | .integer i, _ => some (SER_INT :: intToBytes8 i)
  | .number bits, _ => some (SER_NUM :: bits)
  | .str s, _ => some (SER_STRING :: (toLE 8 s.length ++ s))
  | .table fields, depth =>
    if depth > 100 then none
    else do
      let body ← serialize_fields fields depth
      return SER_TABLE :: (intToBytes8 (fields.count : Int) ++ body)
  | .func, _ => none
  | .thread, _ => none
  | .userdata, _ => none

/-- The second `lua_next` loop of `serialize_table`: each key and value
serialized in order at `depth + 1`. -/
def serialize_fields : LuaFields → Nat → Option (List Nat)
  | .fnil, _ => some []
  | .fcons k v rest, depth => do
    let bk ← serialize_value k (depth + 1)
    let bv ← serialize_value v (depth + 1)
    let br ← serialize_fields rest depth
    return bk ++ bv ++ br
end

/-- `serialize_table(L, idx, b, depth)` as a named entry point (its body
is the table arm of `serialize_value`). -/
def serialize_table (fields : LuaFields) (depth : Nat) : Option (List Nat) :=
  if depth > 100 then none
  else do
    let body ← serialize_fields fields depth
    return SER_TABLE :: (intToBytes8 (fields.count : Int) ++ body)

mutual
/-- Does a value contain a function, thread or userdata anywhere (the
types whose serialization raises)? -/
def hasBadV : LuaValue → Bool
  | .nil => false
  | .boolean _ => false
  | .integer _ => false
  | .number _ => false
  | .str _ => false
  | .table fields => hasBadF fields
  | .func => true
  | .thread => true
  | .userdata => true

/-- `hasBadV` over every key and value of a field list. -/
def hasBadF : LuaFields → Bool
  | .fnil => false
  | .fcons k v rest => hasBadV k || hasBadV v || hasBadF rest
end

mutual
/-- Table nesting depth: a non-table value has depth 0, a table is one
deeper than its deepest key or value (a flat table has depth 1). -/
def tdepthV : LuaValue → Nat
  | .nil => 0
  | .boolean _ => 0
  | .integer _ => 0
  | .number _ => 0
  | .str _ => 0
  | .table fields => 1 + tdepthF fields
  | .func => 0
  | .thread => 0
  | .userdata => 0

/-- Deepest nesting among the keys and values of a field list. -/
def tdepthF : LuaFields → Nat
  | .fnil => 0
  | .fcons k v rest => max (max (tdepthV k) (tdepthV v)) (tdepthF rest)
end

mutual
/-- Machine representability of a value in the C data model: integers fit
a 64-bit `lua_Integer`, a double is 8 bytes, string lengths fit `size_t`,
and a table's entry count fits the positive range of `lua_Integer`. -/
def reprOkV : LuaValue → Bool
  | .nil => true
  | .boolean _ => true
  | .integer i => decide (-(2 ^ 63) ≤ i) && decide (i < 2 ^ 63)
  | .number bits => decide (bits.length = 8)
  | .str s => decide (s.length < 2 ^ 64)
  | .table fields => decide (fields.count < 2 ^ 63) && reprOkF fields
  | .func => true
  | .thread => true
  | .userdata => true

/-- `reprOkV` over every key and value of a field list. -/
def reprOkF : LuaFields → Bool
  | .fnil => true
  | .fcons k v rest => reprOkV k && reprOkV v && reprOkF rest
end

mutual
/-- Recursion depth needed by the deserializer to rebuild a value (used
only to size the fuel of the executable deserializer). -/
def fuelV : LuaValue → Nat
  | .nil => 1
  | .boolean _ => 1
  | .integer _ => 1
  | .number _ => 1
  | .str _ => 1
  | .table fields => 1 + fuelF fields
  | .func => 1
  | .thread => 1
  | .userdata => 1

/-- Deepest `fuelV` among the keys and values of a field list. -/
def fuelF : LuaFields → Nat
  | .fnil => 0
  | .fcons k v rest => max (max (fuelV k) (fuelV v)) (fuelF rest)
end

/-- `deser_read`: take `n` bytes off the front of the input, or fail when
fewer remain (the `b->pos + n > b->size` guard). -/
def deser_read (n : Nat) (bs : List Nat) : Option (List Nat × List Nat) :=
  if bs.length < n then none else some (bs.take n, bs.drop n)

mutual
/-- `deserialize_value(L, b)` of `lworkerlib.c`, made total with a fuel
bound on the table-nesting recursion (the C function recurses on the
physical nesting of the input; `deserialize` below supplies fuel that
the round-trip theorems show is always sufficient). -/
def deserialize_value : Nat → List Nat → Option (LuaValue × List Nat)
  | 0, _ => none
  | _ + 1, [] => none
  | fuel + 1, tag :: bs =>
    if tag = SER_NIL then some (.nil, bs)
    else if tag = SER_BOOL then
      match bs with
      | [] => none
      | v :: rest => some (.boolean (v ≠ 0), rest)
    else if tag = SER_INT then
      match deser_read 8 bs with
      | none => none
      | some (w, rest) => some (.integer (toSigned64 (fromLE w)), rest)
    else if tag = SER_NUM then
      match deser_read 8 bs with
      | none => none
      | some (w, rest) => some (.number w, rest)
    else if tag = SER_STRING then
      match deser_read 8 bs with
      | none => none
      | some (w, rest) =>
        match deser_read (fromLE w) rest with
        | none => none
        | some (s, rest') => some (.str s, rest')
    else if tag = SER_TABLE then
      match deser_read 8 bs with
      | none => none
      | some (w, rest) =>
        match deserialize_fields fuel (toSigned64 (fromLE w)).toNat rest with
        | none => none
        | some (fields, rest') => some (.table fields, rest')
    else none
termination_by fuel _ => (fuel, 0)

/-- The key-value loop of `deserialize_table`: read `count` pairs.  A
negative stored count makes the C `for` loop run zero times, hence the
`Int.toNat` at the call site above. -/
def deserialize_fields : Nat → Nat → List Nat → Option (LuaFields × List Nat)
  | _, 0, bs => some (.fnil, bs)
  | fuel, count + 1, bs => do
    let (k, r1) ← deserialize_value fuel bs
    let (v, r2) ← deserialize_value fuel r1
    let (rest, r3) ← deserialize_fields fuel count r2
    return (.fcons k v rest, r3)
termination_by fuel count _ => (fuel, count + 1)
end

/-- Top-level deserialization of one mailbox message: the input length
bounds the possible nesting depth, so it serves as fuel. -/
def deserialize (bs : List Nat) : Option (LuaValue × List Nat) :=
  deserialize_value (bs.length + 1) bs

/-! ## Pledge store (`lpledge.c`)

C strings are `List Char`.  Granter callbacks are C function pointers;
the repository registers exactly one, `fs_granter` of `lfslib.c`, so the
type of granters is the one-constructor inductive `Granter` and
`runGranter` dispatches on it.  `fs_granter`'s CHECK mode consults the
platform glob matcher (`lus_glob_match_path`), which is an external
collaborator and enters as the function parameter `gm`. -/

deriving instance DecidableEq for Except

/-- A C string. -/
abbrev CStr := List Char

/-- `MAX_VALUES_PER_PLEDGE`. -/
def MAX_VALUES_PER_PLEDGE : Nat := 32

/-- `MAX_GRANTERS`. -/
def MAX_GRANTERS : Nat := 32

/-- `MAX_PLEDGE_NAME` (the size of every `namebuf`). -/
def MAX_PLEDGE_NAME : Nat := 256

/-- One permission entry: name, granted values, rejected flag. -/
structure PledgeEntry where
  name : CStr
  values : List CStr
  rejected : Bool
deriving DecidableEq, Repr

/-- The granter callbacks registered anywhere in the repository:
`lus_registerpledge(L, "fs", fs_granter)` in `luaopen_fs` is the only
registration site. -/
inductive Granter where
  | fs
deriving DecidableEq, Repr

/-- The pledge store: entry list, sealed flag, granter table, last
granter error message. -/
structure PledgeStore where
  entries : List PledgeEntry
  sealed : Bool
  granters : List (CStr × Granter)
  error_msg : Option CStr
deriving DecidableEq, Repr

/-- `getstore` on a state whose `L->pledges` is still `NULL`: a fresh
empty store. -/
def emptyPledgeStore : PledgeStore :=
  { entries := [], sealed := false, granters := [], error_msg := none }

/-- `findentry`: first entry with the given name. -/
def findentry (store : PledgeStore) (name : CStr) : Option PledgeEntry :=
  store.entries.find? (fun e => e.name = name)

/-- Everything before the first `c` in `s`, and what follows it (the
`strchr` split; `none` when `c` does not occur). -/
def splitAtChar (c : Char) : CStr → CStr × Option CStr
  | [] => ([], none)
  | x :: xs =>
    if x = c then ([], some xs)
    else
      let (front, rest) := splitAtChar c xs
      (x :: front, rest)

/-- `findgranter`: exact name match first, then the base before the
first colon. -/
def findgranter (store : PledgeStore) (name : CStr) : Option Granter :=
  match store.granters.find? (fun g => g.1 = name) with
  | some g => some g.2
  | none =>
    match splitAtChar ':' name with
    | (_, none) => none
    | (base, some _) =>
      (store.granters.find? (fun g => g.1 = base)).map (·.2)

/-- `addentry`: append a fresh entry (no values, not rejected). -/
def addentry (store : PledgeStore) (name : CStr) : PledgeStore :=
  { store with entries := store.entries ++ [{ name := name, values := [], rejected := false }] }

/-- `addvalue`: append a value to an entry unless the entry is full or
already holds it. -/
def addvalue (e : PledgeEntry) (value : CStr) : PledgeEntry :=
  if e.values.length ≥ MAX_VALUES_PER_PLEDGE then e
  else if value ∈ e.values then e
  else { e with values := e.values ++ [value] }

/-- Apply `f` to the first entry named `name` (the C code mutates the
entry through the pointer `findentry` returned). -/
def modifyEntry (store : PledgeStore) (name : CStr) (f : PledgeEntry → PledgeEntry) :
    PledgeStore :=
  { store with
    entries := store.entries.map (fun e => if e.name = name then f e else e) }

/-- `buildname`: `"base:sub"` or just `base`, truncated by `snprintf` to
the 255 characters that fit `namebuf`. -/
def buildname (base : CStr) (sub : Option CStr) : CStr :=
  match sub with
  | some s => (base ++ ':' :: s).take (MAX_PLEDGE_NAME - 1)
  | none => base.take (MAX_PLEDGE_NAME - 1)

/-- `parsepledge`: strip a leading `~`, split at the first `=`. Returns
(rejected, name, text after the `=` if present). -/
def parsepledge (s : CStr) : Bool × CStr × Option CStr :=
  match s with
  | '~' :: rest =>
    let (name, value) := splitAtChar '=' rest
    (true, name, value)
  | _ =>
    let (name, value) := splitAtChar '=' s
    (false, name, value)

/-- Request status constants `LUS_PLEDGE_GRANT` / `UPDATE` / `CHECK`. -/
inductive PledgeStatus where
  | grant
  | update
  | check
deriving DecidableEq, Repr

/-- `lus_PledgeRequest`.  The C `_entry` field is a pointer into the
store's entry array; here it is the name of that entry, looked up at use
sites (entry names are unique because `addentry` only runs after
`findentry` misses). -/
structure PledgeRequest where
  base : CStr
  sub : Option CStr
  value : Option CStr
  status : PledgeStatus
  count : Nat
  has_base : Bool
  processed : Bool
  entry : Option CStr
deriving DecidableEq, Repr

/-- `lus_initpledge`: a zeroed request for `base` in GRANT status, with
`has_base` set when a non-rejected entry for the bare base exists. -/
def lus_initpledge (store : PledgeStore) (base : CStr) : PledgeRequest :=
  { base := base, sub := none, value := none, status := .grant,
    count := 0, has_base :=
      match findentry store base with
      | some e => !e.rejected
      | none => false,
    processed := false, entry := none }

/-- `lus_setpledge`: find or create the entry for `base[:sub]`, add the
value if one is given, mark the request processed.  Note: no check of
the entry's `rejected` flag. -/
def lus_setpledge (store : PledgeStore) (p : PledgeRequest) (sub : Option CStr)
    (value : Option CStr) : PledgeStore × PledgeRequest :=
  let namebuf := buildname p.base sub
  let store1 :=
    match findentry store namebuf with
    | some _ => store
    | none => addentry store namebuf
  let store2 :=
    match value with
    | some v => modifyEntry store1 namebuf (fun e => addvalue e v)
    | none => store1
  (store2, { p with processed := true })

/-- The values stored for the entry the request iterates over
(`lus_nextpledge` walks `p->_entry->values`). -/
def requestValues (store : PledgeStore) (p : PledgeRequest) : List CStr :=
  match p.entry with
  | none => []
  | some nm =>
    match findentry store nm with
    | some e => e.values
    | none => []

/-- `fs_granter` of `lfslib.c`.  `gm` is `lus_glob_match_path` (pattern,
path).  The `Except` error is the `luaL_error` for an unknown fs
subpermission.  The CHECK arm's `while (lus_nextpledge(...))` loop is
the `List.any` over the stored values. -/
def fs_granter (gm : CStr → CStr → Bool) (store : PledgeStore) (p : PledgeRequest) :
    Except Unit (PledgeStore × PledgeRequest) :=
  if p.status = .grant ∨ p.status = .update then
    match p.sub with
    | none => .ok (lus_setpledge store p none p.value)
    | some sub =>
      if sub = "read".toList ∨ sub = "write".toList then
        .ok (lus_setpledge store p (some sub) p.value)
      else .error ()
  else if p.status = .check then
    match p.value with
    | none => .ok (lus_setpledge store p p.sub none)
    | some path =>
      if p.has_base ∧ p.count = 0 then .ok (lus_setpledge store p p.sub none)
      else if (requestValues store p).any (fun cur => gm cur path) then
        .ok (lus_setpledge store p p.sub none)
      else .ok (store, p)
  else .ok (store, p)

/-- Dispatch a registered granter callback. -/
def runGranter (gm : CStr → CStr → Bool) (g : Granter) (store : PledgeStore)
    (p : PledgeRequest) : Except Unit (PledgeStore × PledgeRequest) :=
  match g with
  | .fs => fs_granter gm store p

/-- The `strchr(name, ':')` split of `lus_pledge` / `lus_haspledge`,
with the 255-character truncation of `basebuf`. -/
def splitColon (name : CStr) : CStr × Option CStr :=
  match splitAtChar ':' name with
  | (_, none) => (name.take (MAX_PLEDGE_NAME - 1), none)
  | (base, some sub) => (base.take (MAX_PLEDGE_NAME - 1), some sub)

/-- `lus_pledge(L, name, value)`: sealed stores refuse, a missing
granter is `luaL_error` (`Except.error`), otherwise the granter runs in
GRANT status and the result is its `_processed` flag.  Note: the
`rejected` flag of an existing entry is never consulted. -/
def lus_pledge (gm : CStr → CStr → Bool) (store : PledgeStore) (name : CStr)
    (value : Option CStr) : PledgeStore × Except Unit Bool :=
  if store.sealed then (store, .ok false)
  else
    match findgranter store name with
    | none => (store, .error ())
    | some g =>
      let (base, sub) := splitColon name
      let req0 := lus_initpledge store base
      let req1 := { req0 with sub := sub, value := value, status := .grant }
      let req2 :=
        match findentry store name with
        | some e => { req1 with count := e.values.length, entry := some e.name }
        | none => req1
      let store1 := { store with error_msg := none }
      match runGranter gm g store1 req2 with
      | .error _ => (store1, .error ())
      | .ok (store2, req3) => (store2, .ok req3.processed)

/-- `luaB_pledge` of `lpledge.c`: the script-facing variadic `pledge`.
Processes each argument in order, pushing one boolean per argument;
`Except.error` models the `luaL_error` exits (overlong name or value,
`"all"`, a rejected name, or an unknown permission inside
`lus_pledge`).  The store travels alongside the result so state at the
moment of a raise is visible. -/
def luaB_pledge (gm : CStr → CStr → Bool) :
    PledgeStore → List CStr → PledgeStore × Except Unit (List Bool)
  | store, [] => (store, .ok [])
  | store, a :: rest =>
    let (rejected, name, value) := parsepledge a
    if name.length ≥ MAX_PLEDGE_NAME then (store, .error ())
    else if (match value with
             | some v => v.length > 0 && v.length ≥ 1024
             | none => false) then (store, .error ())
    else
      let valueptr : Option CStr :=
        match value with
        | some v => if v.length > 0 then some v else none
        | none => none
      if name = "all".toList then (store, .error ())
      else if name = "seal".toList then
        let store1 := { store with sealed := true }
        match luaB_pledge gm store1 rest with
        | (store2, .ok results) => (store2, .ok (true :: results))
        | (store2, .error e) => (store2, .error e)
      else if rejected then
        if store.sealed then
          match luaB_pledge gm store rest with
          | (store2, .ok results) => (store2, .ok (false :: results))
          | (store2, .error e) => (store2, .error e)
        else
          let store1 :=
            match findentry store name with
            | some _ => store
            | none => addentry store name
          let store2 := modifyEntry store1 name (fun e => { e with rejected := true })
          match luaB_pledge gm store2 rest with
          | (store3, .ok results) => (store3, .ok (true :: results))
          | (store3, .error e) => (store3, .error e)
      else if store.sealed then
        match luaB_pledge gm store rest with
        | (store2, .ok results) => (store2, .ok (false :: results))
        | (store2, .error e) => (store2, .error e)
      else
        match findentry store name with
        | some e =>
          if e.rejected then (store, .error ())
          else
            match lus_pledge gm store name valueptr with
            | (store1, .ok granted) =>
              match luaB_pledge gm store1 rest with
              | (store2, .ok results) => (store2, .ok (granted :: results))
              | (store2, .error err) => (store2, .error err)
            | (store1, .error err) => (store1, .error err)
        | none =>
          match lus_pledge gm store name valueptr with
          | (store1, .ok granted) =>
            match luaB_pledge gm store1 rest with
            | (store2, .ok results) => (store2, .ok (granted :: results))
            | (store2, .error err) => (store2, .error err)
          | (store1, .error err) => (store1, .error err)

/-- `luaP_copypledges`: the deep copy taken for a cloned VM state —
every entry with its name, values and rejected flag, the sealed flag,
the granter registrations; the error message is not carried over. -/
def luaP_copypledges : Option PledgeStore → Option PledgeStore
  | none => none
  | some parent =>
    some
      { entries := parent.entries.map
          (fun e => { name := e.name, values := e.values, rejected := e.rejected }),
        sealed := parent.sealed,
        granters := parent.granters.map (fun g => (g.1, g.2)),
        error_msg := none }

/-- `lus_registerpledge`: create the store on demand, replace an
existing registration for the name, otherwise append (up to
`MAX_GRANTERS`). -/
def lus_registerpledge (store? : Option PledgeStore) (name : CStr) (g : Granter) :
    Option PledgeStore :=
  let store := store?.getD emptyPledgeStore
  if store.granters.length ≥ MAX_GRANTERS then some store
  else if (store.granters.find? (fun e => e.1 = name)).isSome then
    some { store with
           granters := store.granters.map (fun e => if e.1 = name then (e.1, g) else e) }
  else some { store with granters := store.granters ++ [(name, g)] }

/-- The pledge store a freshly created worker VM ends up with.
`worker_run` (`lworkerlib.c:524`) calls `luaL_newstate`, whose state
starts with `L->pledges == NULL` (`luaP_initpledges`), then invokes the
registered setup hook.  The only hook the repository installs is
`worker_setup` (`lua.c:67`), which discards its `parent` argument —
`(void)parent;` — and runs `luaL_openselectedlibs(worker, ~0, 0)`;
opening the fs library registers the fs granter
(`lus_registerpledge(L, "fs", fs_granter)` at `lfslib.c:914`).  No code
on this path calls `luaP_copypledges`. -/
def worker_initial_pledges (_parent : Option PledgeStore) : Option PledgeStore :=
  lus_registerpledge none "fs".toList .fs

/-! ## Scheduler (`events/lev.c`)

Coroutines are identified by `Nat` (their pointer identity).  The VM is
an external collaborator: what a coroutine does on each successive
`lua_resume` is given by a finite script of `ResumeOutcome`s per
coroutine; an exhausted script plays the role of a no-longer-resumable
(dead) coroutine, which `scheduler_poll` skips.  The event backend is
likewise external: `scheduler_poll` receives the batch its `wait` call
returned, and the backend registration list mirrors the `add`/`remove`
calls the scheduler issues.  Thread-pool `done` flags are the input
`doneTasks`.  Times and deadlines are `Int` (monotonic seconds): only
their order matters to the properties studied here. -/

/-- Yield reasons `YIELD_NORMAL` / `YIELD_IO` / `YIELD_SLEEP` /
`YIELD_THREADPOOL`. -/
inductive YieldReason where
  | normal
  | ioWait
  | sleep
  | threadpool
deriving DecidableEq, Repr

/-- The per-coroutine side record (`CoroutineState` in `lev.c`). -/
structure CoroState where
  detached : Bool
  yield_reason : YieldReason
  yield_fd : Int
  yield_events : Nat
  yield_deadline : Int
  yield_task : Option Nat
deriving DecidableEq, Repr

/-- A freshly created record is `memset` to zero: note the fd starts at
`0`, not `-1` (`get_yield_fd` returns `-1` only when no record exists at
all). -/
def CoroState.zeroed : CoroState :=
  { detached := false, yield_reason := .normal, yield_fd := 0,
    yield_events := 0, yield_deadline := 0, yield_task := none }

/-- What one `lua_resume` of a coroutine does: suspend after configuring
an async yield descriptor, yield normally, return, or raise. -/
inductive ResumeOutcome where
  | yieldIoWait (fd : Int) (events : Nat)
  | yieldSleep (deadline : Int)
  | yieldThreadpool (task : Nat)
  | yieldNormal
  | complete
  | fail (msg : String)
deriving DecidableEq, Repr

/-- Did this outcome leave the coroutine suspended (`LUA_YIELD`)? -/
def ResumeOutcome.isYield : ResumeOutcome → Bool
  | .yieldIoWait _ _ => true
  | .yieldSleep _ => true
  | .yieldThreadpool _ => true
  | .yieldNormal => true
  | _ => false

/-- `PendingCoroutine`: one node of the scheduler's pending list. -/
structure PendingCoroutine where
  co : Nat
  fd : Int
  events : Nat
  deadline : Int
deriving DecidableEq, Repr

/-- One normalized backend event (`EventResult`). -/
structure EventResult where
  fd : Int
  events : Nat
deriving DecidableEq, Repr

/-- The scheduler state plus the modelled surroundings: the coroutine
side table (`lus.corostate`), the anchor table (`lus.pending_coros`), the
backend's registration set, and the coroutine scripts standing in for
the VM. -/
structure SchedState where
  pending : List PendingCoroutine
  pending_count : Int
  pending_error : Option String
  backend : List (Int × Nat)
  anchored : List Nat
  corostate : List (Nat × CoroState)
  scripts : List (Nat × List ResumeOutcome)
deriving DecidableEq, Repr

/-- Look up a coroutine's side record (`get_corostate(co, 0)`). -/
def getCoro (st : SchedState) (co : Nat) : Option CoroState :=
  (st.corostate.find? (fun e => e.1 = co)).map (·.2)

/-- Update a coroutine's side record, creating a zeroed one first when
none exists (`get_corostate(co, 1)`). -/
def setCoro (st : SchedState) (co : Nat) (f : CoroState → CoroState) : SchedState :=
  if (st.corostate.find? (fun e => e.1 = co)).isSome then
    { st with corostate := st.corostate.map (fun e => if e.1 = co then (e.1, f e.2) else e) }
  else
    { st with corostate := (co, f CoroState.zeroed) :: st.corostate }

/-- `get_yield_reason`: `YIELD_NORMAL` when no record exists. -/
def getYieldReason (st : SchedState) (co : Nat) : YieldReason :=
  ((getCoro st co).map (·.yield_reason)).getD .normal

/-- `get_yield_fd`: `-1` when no record exists. -/
def getYieldFd (st : SchedState) (co : Nat) : Int :=
  ((getCoro st co).map (·.yield_fd)).getD (-1)

/-- `get_yield_events`: `0` when no record exists. -/
def getYieldEvents (st : SchedState) (co : Nat) : Nat :=
  ((getCoro st co).map (·.yield_events)).getD 0

/-- `get_yield_deadline`: `0` when no record exists. -/
def getYieldDeadline (st : SchedState) (co : Nat) : Int :=
  ((getCoro st co).map (·.yield_deadline)).getD 0

/-- `get_yield_task`: `NULL` when no record exists. -/
def getYieldTask (st : SchedState) (co : Nat) : Option Nat :=
  ((getCoro st co).map (·.yield_task)).getD none

/-- Deregister an fd from the backend (`ops->remove`). -/
def backendRemove (regs : List (Int × Nat)) (fd : Int) : List (Int × Nat) :=
  regs.filter (fun r => r.1 ≠ fd)

/-- The bookkeeping of `scheduler_add_pending` apart from the list
insertion itself: count, backend registration for a real fd, anchor
entry (the registry `rawset` keyed by the coroutine). -/
def addPendingFields (st : SchedState) (co : Nat) (fd : Int) (events : Nat) :
    SchedState :=
  { st with
    pending_count := st.pending_count + 1,
    backend := if fd ≥ 0 then (fd, events) :: st.backend else st.backend,
    anchored := if co ∈ st.anchored then st.anchored else co :: st.anchored }

/-- `scheduler_add_pending(L, co, fd, events, deadline)`: the new entry
is pushed at the HEAD of the pending list. -/
def scheduler_add_pending (st : SchedState) (co : Nat) (fd : Int) (events : Nat)
    (deadline : Int) : SchedState :=
  let st1 := addPendingFields st co fd events
  { st1 with pending := { co := co, fd := fd, events := events, deadline := deadline } :: st.pending }

/-- The readiness test of one pending entry inside the `scheduler_poll`
scan: expired timer, fd present in the wait batch, or a finished
thread-pool task. -/
def entryReady (st : SchedState) (now : Int) (results : List EventResult)
    (doneTasks : List Nat) (cur : PendingCoroutine) : Bool :=
  (cur.deadline > 0 && now ≥ cur.deadline)
  || (cur.fd ≥ 0 && results.length > 0 && results.any (fun r => r.fd = cur.fd))
  || (getYieldReason st cur.co = .threadpool &&
      match getYieldTask st cur.co with
      | some t => doneTasks.contains t
      | none => false)

/-- Pop the next scripted outcome of a coroutine.  `none` stands for a
coroutine that is no longer resumable (the `lua_status` / `lua_getstack`
skip in `scheduler_poll`). -/
def popOutcome (scripts : List (Nat × List ResumeOutcome)) (co : Nat) :
    Option ResumeOutcome × List (Nat × List ResumeOutcome) :=
  match scripts.find? (fun e => e.1 = co) with
  | some (_, out :: _) =>
    (some out,
     scripts.map (fun e => if e.1 = co then (e.1, e.2.tail) else e))
  | _ => (none, scripts)

/-- Total scripted outcomes remaining (termination measure for the poll
scan: every resumption consumes one). -/
def totalOutcomes (scripts : List (Nat × List ResumeOutcome)) : Nat :=
  (scripts.map (fun e => e.2.length)).sum

/-- The side effects of one `lua_resume` under outcome `out`: the yield
descriptor writes the coroutine performed before suspending, or the
`unmark_detached` and error stashing of the completion and error arms of
`scheduler_poll`. -/
def applyOutcome (st : SchedState) (co : Nat) (out : ResumeOutcome) : SchedState :=
  match out with
  | .yieldIoWait fd events =>
    let st1 := setCoro st co (fun c => { c with yield_reason := .ioWait })
    let st2 := setCoro st1 co (fun c => { c with yield_fd := fd })
    setCoro st2 co (fun c => { c with yield_events := events })
  | .yieldSleep deadline =>
    let st1 := setCoro st co (fun c => { c with yield_reason := .sleep })
    setCoro st1 co (fun c => { c with yield_deadline := deadline })
  | .yieldThreadpool task =>
    let st1 := setCoro st co (fun c => { c with yield_reason := .threadpool })
    setCoro st1 co (fun c => { c with yield_task := some task })
  | .yieldNormal => st
  | .complete => setCoro st co (fun c => { c with detached := false })
  | .fail msg =>
    let st1 := setCoro st co (fun c => { c with detached := false })
    { st1 with pending_error := some msg }

/-- The timer scan at the top of `scheduler_poll`: clip the caller's
timeout to the earliest pending deadline (`0` as soon as one has already
expired).  Its value is handed to the backend's `wait`, whose reply is
the `results` input of `scheduler_poll`. -/
def effectiveTimeout : List PendingCoroutine → Int → Int → Int
  | [], acc, _ => acc
  | p :: rest, acc, now =>
    if p.deadline > 0 then
      let wait := p.deadline - now
      if wait ≤ 0 then 0
      else
        let wait_ms := wait * 1000
        if acc < 0 ∨ wait_ms < acc then effectiveTimeout rest wait_ms now
        else effectiveTimeout rest acc now
    else effectiveTimeout rest acc now

/-- The `while (*pp != NULL)` scan of `scheduler_poll`.  `front` holds
the already-scanned region of the pending list in list order and `rest`
the unscanned tail, so the live list is always `front ++ rest`; `pp`
points between them.  A resumed entry is unlinked; when it re-admits
itself, `scheduler_add_pending` pushes the new entry at the global list
head — which is the scan position itself when `front = []` (the new
entry is examined by the same cycle), and lies behind `pp` otherwise
(the new entry is not examined again).  `fuel` makes the recursion
structural; every iteration either consumes one scripted outcome or
shortens the unscanned tail, so the bound
`totalOutcomes + length + 1` supplied by `scheduler_poll` is never
exhausted. -/
def pollLoop (now : Int) (results : List EventResult) (doneTasks : List Nat) :
    Nat → SchedState → List PendingCoroutine → List PendingCoroutine → List Nat →
    SchedState × List Nat
  | 0, st, front, rest, resumed => ({ st with pending := front ++ rest }, resumed.reverse)
  | _ + 1, st, front, [], resumed => ({ st with pending := front }, resumed.reverse)
  | fuel + 1, st, front, cur :: rest, resumed =>
    if entryReady st now results doneTasks cur then
      let st1 := { st with
        pending_count := st.pending_count - 1,
        backend := if cur.fd ≥ 0 then backendRemove st.backend cur.fd else st.backend,
        anchored := st.anchored.erase cur.co }
      let st2 := setCoro st1 cur.co (fun c => { c with yield_reason := .normal })
      match popOutcome st2.scripts cur.co with
      | (none, _) =>
        pollLoop now results doneTasks fuel st2 front rest resumed
      | (some out, scripts') =>
        let st3 := { st2 with scripts := scripts' }
        let st4 := applyOutcome st3 cur.co out
        if out.isYield then
          let reason := getYieldReason st4 cur.co
          if reason = .ioWait ∨ reason = .sleep ∨ reason = .threadpool then
            let entry' : PendingCoroutine :=
              { co := cur.co, fd := getYieldFd st4 cur.co,
                events := getYieldEvents st4 cur.co,
                deadline := getYieldDeadline st4 cur.co }
            let st5 := addPendingFields st4 cur.co entry'.fd entry'.events
            match front with
            | [] =>
              pollLoop now results doneTasks fuel st5 [] (entry' :: rest)
                (cur.co :: resumed)
            | _ =>
              pollLoop now results doneTasks fuel st5 (entry' :: front) rest
                (cur.co :: resumed)
          else
            pollLoop now results doneTasks fuel st4 front rest (cur.co :: resumed)
        else
          pollLoop now results doneTasks fuel st4 front rest (cur.co :: resumed)
    else
      pollLoop now results doneTasks fuel st (front ++ [cur]) rest resumed

/-- What one `scheduler_poll` call did: the state afterwards, the
coroutines resumed in order, and the error it raised (via `lua_error`),
if any. -/
structure PollResult where
  st : SchedState
  resumed : List Nat
  raised : Option String
deriving DecidableEq, Repr

/-- `scheduler_poll(L, timeout_ms)` of `lev.c`.  `now0` is
`eventloop_now()` before the backend wait (it feeds the effective
timeout) and `now` the refresh taken after; `results` is the batch the
wait returned (at most 16 entries by its contract, and `[]` both on
timeout and on the interrupted-call path that the backends map to 0);
`doneTasks` lists the thread-pool tasks whose `done` flag is observed
set during the scan.  A stored pending error is raised before anything
else; a pending error stashed by a failed resumption during the scan is
raised at the end of the same call. -/
def scheduler_poll (st : SchedState) (timeout_ms : Int) (now0 now : Int)
    (results : List EventResult) (doneTasks : List Nat) : PollResult :=
  match st.pending_error with
  | some e => { st := { st with pending_error := none }, resumed := [], raised := some e }
  | none =>
    if st.pending_count = 0 then { st := st, resumed := [], raised := none }
    else
      let _effective := effectiveTimeout st.pending timeout_ms now0
      let fuel := totalOutcomes st.scripts + st.pending.length + 1
      let (st', resumed) := pollLoop now results doneTasks fuel st [] st.pending []
      match st'.pending_error with
      | some e =>
        { st := { st' with pending_error := none }, resumed := resumed, raised := some e }
      | none => { st := st', resumed := resumed, raised := none }

/-! ## Standalone bundle (`lbundle.c`)

The bundle file is a byte list: the original executable image, the
bytecode blobs back to back, the index, then the 8-byte footer (index
size as little-endian `u32`, then the magic `LUSB`).  The parser walks a
cursor, exactly as `lusB_load` walks `p` through `index_data`; a read
past the available bytes is `none` (in C it would be an out-of-bounds
read). -/

/-- `LUSB_MAGIC` — the bytes of `"LUSB"`. -/
def LUSB_MAGIC : List Nat := [76, 85, 83, 66]

/-- `LUSB_VERSION`. -/
def LUSB_VERSION : Nat := 1

/-- `LUSB_MAX_NAME`. -/
def LUSB_MAX_NAME : Nat := 256

/-- `LUSB_MAX_ARGS`. -/
def LUSB_MAX_ARGS : Nat := 64

/-- `LUSB_MAX_FILES`. -/
def LUSB_MAX_FILES : Nat := 1024

/-- One index entry (`LusBundleFile`): module name, offset within the
bytecode blob, size. -/
structure LusBundleFile where
  name : List Nat
  offset : Nat
  size : Nat
deriving DecidableEq, Repr

/-- A parsed bundle (`LusBundle`), minus the exe path: the reader below
takes the file bytes alongside. -/
structure LusBundle where
  version : Nat
  entrypoint : List Nat
  args : List (List Nat)
  files : List LusBundleFile
  data_offset : Nat
deriving DecidableEq, Repr

/-- Read one byte off the cursor. -/
def readU8 : List Nat → Option (Nat × List Nat)
  | [] => none
  | b :: rest => some (b, rest)

/-- `read_u16`: two little-endian bytes. -/
def readU16 : List Nat → Option (Nat × List Nat)
  | b0 :: b1 :: rest => some (b0 + 256 * b1, rest)
  | _ => none

/-- `read_u32`: four little-endian bytes. -/
def readU32 : List Nat → Option (Nat × List Nat)
  | b0 :: b1 :: b2 :: b3 :: rest =>
    some (b0 + 256 * b1 + 65536 * b2 + 16777216 * b3, rest)
  | _ => none

/-- `memcpy` of `n` bytes off the cursor. -/
def readChunk (n : Nat) (bs : List Nat) : Option (List Nat × List Nat) :=
  if bs.length < n then none else some (bs.take n, bs.drop n)

/-- The preserved-args loop of `lusB_load`: `count` length-prefixed
strings. -/
def parseArgs : Nat → List Nat → Option (List (List Nat) × List Nat)
  | 0, bs => some ([], bs)
  | count + 1, bs => do
    let (len, r1) ← readU16 bs
    let (arg, r2) ← readChunk len r1
    let (rest, r3) ← parseArgs count r2
    return (arg :: rest, r3)

/-- The files loop of `lusB_load`: name (with the `LUSB_MAX_NAME`
check), offset, size per entry. -/
def parseFiles : Nat → List Nat → Option (List LusBundleFile × List Nat)
  | 0, bs => some ([], bs)
  | count + 1, bs => do
    let (len, r1) ← readU16 bs
    if len ≥ LUSB_MAX_NAME then none
    else do
      let (name, r2) ← readChunk len r1
      let (offset, r3) ← readU32 r2
      let (size, r4) ← readU32 r3
      let (rest, r5) ← parseFiles count r4
      return ({ name := name, offset := offset, size := size } :: rest, r5)

/-- The `total_bytecode` computation of `lusB_load`: the maximal
`offset + size` across the file entries. -/
def totalBytecode (files : List LusBundleFile) : Nat :=
  files.foldl (fun t f => max t (f.offset + f.size)) 0

/-- `lusB_load` on the bytes of this process's executable: footer and
magic check, index extraction, index parse (version, counts with their
caps, entrypoint, args, files), and the data-offset computation
`filesize - 8 - index_size - total_bytecode`. -/
def lusB_load (file : List Nat) : Option LusBundle :=
  let filesize := file.length
  if filesize < 8 then none
  else
    let footer := file.drop (filesize - 8)
    if footer.drop 4 ≠ LUSB_MAGIC then none
    else
      let index_size := fromLE (footer.take 4)
      if index_size = 0 ∨ index_size > filesize - 8 then none
      else
        let index := (file.drop (filesize - 8 - index_size)).take index_size
        match readU8 index with
        | none => none
        | some (version, p1) =>
          if version ≠ LUSB_VERSION then none
          else
            match readU16 p1 with
            | none => none
            | some (num_args, p2) =>
              match readU16 p2 with
              | none => none
              | some (num_files, p3) =>
                if num_args > LUSB_MAX_ARGS ∨ num_files > LUSB_MAX_FILES then none
                else
                  match readU16 p3 with
                  | none => none
                  | some (entry_len, p4) =>
                    if entry_len ≥ LUSB_MAX_NAME then none
                    else
                      match readChunk entry_len p4 with
                      | none => none
                      | some (entrypoint, p5) =>
                        match parseArgs num_args p5 with
                        | none => none
                        | some (args, p6) =>
                          match parseFiles num_files p6 with
                          | none => none
                          | some (files, _) =>
                            some
                              { version := version, entrypoint := entrypoint,
                                args := args, files := files,
                                data_offset :=
                                  filesize - 8 - index_size - totalBytecode files }

/-- `lusB_getfile(bundle, name, &size)`: find the first entry with the
given module name and read its bytes at `data_offset + offset` from the
executable (a short read — the slice running past the end of the file —
is the `fread != size` failure). -/
def lusB_getfile (bundle : LusBundle) (file : List Nat) (name : List Nat) :
    Option (List Nat) :=
  match bundle.files.find? (fun f => f.name = name) with
  | none => none
  | some f =>
    if bundle.data_offset + f.offset + f.size ≤ file.length then
      some ((file.drop (bundle.data_offset + f.offset)).take f.size)
    else none

/-- `lusB_buildindex(version, entrypoint, num_args, args, num_files,
names, offsets, sizes, &index_size)`: the index bytes, in the exact
layout `lusB_load` parses. -/
def lusB_buildindex (version : Nat) (entrypoint : List Nat)
    (args : List (List Nat)) (files : List LusBundleFile) : List Nat :=
  [version % 256]
    ++ toLE 2 args.length
    ++ toLE 2 files.length
    ++ toLE 2 entrypoint.length
    ++ entrypoint
    ++ (args.map (fun a => toLE 2 a.length ++ a)).flatten
    ++ (files.map (fun f => toLE 2 f.name.length ++ f.name
          ++ toLE 4 f.offset ++ toLE 4 f.size)).flatten

/-- The sequential blob layout of `create_standalone` (`lua.c`): each
module's offset is the total size of the bytecodes before it. -/
def seqFiles (off : Nat) : List (List Nat × List Nat) → List LusBundleFile
  | [] => []
  | (nm, bc) :: rest =>
    { name := nm, offset := off, size := bc.length } :: seqFiles (off + bc.length) rest

/-- Sum of the bytecode sizes. -/
def sumSizes (blobs : List (List Nat × List Nat)) : Nat :=
  (blobs.map (fun b => b.2.length)).sum

/-- The bytes `create_standalone` writes: executable image, bytecode
blobs in order, index, footer (index size as `u32`, then the magic). -/
def bundleFile (exe entrypoint : List Nat) (args : List (List Nat))
    (blobs : List (List Nat × List Nat)) : List Nat :=
  let index := lusB_buildindex LUSB_VERSION entrypoint args (seqFiles 0 blobs)
  exe ++ (blobs.map (·.2)).flatten ++ index ++ toLE 4 index.length ++ LUSB_MAGIC

/-! ## Multi-worker receive (`lib_receive` of `lworkerlib.c`)

One pass of the scan loop over the listed workers, against a snapshot of
their states (each worker's mutex is held while it is examined).  For
each worker, in positional order: an errored worker with a recorded
message makes the call raise that message — this check comes BEFORE the
outbox pop — then liveness feeds the all-dead test, then the outbox is
popped.  When no worker delivers, the pass ends with all-nil (all dead)
or parks on the shared receive context. -/

/-- Worker status word (`LUS_WORKER_RUNNING` / `BLOCKED` / `DEAD` /
`ERROR`). -/
inductive WorkerStatus where
  | running
  | blocked
  | dead
  | error
deriving DecidableEq, Repr

/-- What `lib_receive` can observe of one worker under its mutex. -/
structure WorkerSnapshot where
  status : WorkerStatus
  error_msg : Option String
  outbox : List (List Nat)
deriving DecidableEq, Repr

/-- How one scan pass of `lib_receive` ends. -/
inductive ReceiveResult where
  | noWorkers
  | raise (msg : String)
  | deliver (i : Nat) (v : LuaValue)
  | deserFail
  | allNil
  | wait
deriving DecidableEq, Repr

/-- The per-worker body of the scan: index `i` is the positional index
of the worker at the head of `ws`. -/
def receiveScanFrom (i : Nat) (allDead : Bool) : List WorkerSnapshot → ReceiveResult
  | [] => if allDead then .allNil else .wait
  | w :: rest =>
    if w.status = .error ∧ w.error_msg.isSome then
      .raise (w.error_msg.getD "")
    else
      let allDead' := allDead && (w.status = .dead || w.status = .error)
      match w.outbox with
      | msg :: _ =>
        match deserialize msg with
        | some (v, _) => .deliver i v
        | none => .deserFail
      | [] => receiveScanFrom (i + 1) allDead' rest

/-- One scan pass of `lib_receive` over the listed workers
(`luaL_error` for an empty list, as in the C). -/
def receiveScan (ws : List WorkerSnapshot) : ReceiveResult :=
  match ws with
  | [] => .noWorkers
  | _ => receiveScanFrom 0 true ws

/-! ## Concrete scenarios

Closed states and values at which the theorems below evaluate the
embedded code. -/

/-- A chain of `n` nested tables: `chainTable 0` is an integer,
`chainTable (n+1)` a one-entry table whose value is `chainTable n`.  Its
nesting depth `tdepthV` is exactly `n`. -/
def chainTable : Nat → LuaValue
  | 0 => .integer 0
  | n + 1 => .table (.fcons (.integer 0) (chainTable n) .fnil)

/-- A small representative value: `{ [1] = "hi", ["k"] = 1.0, [true] =
{} }` with the double carried as its 8 host bytes. -/
def sampleValue : LuaValue :=
  .table (.fcons (.integer 1) (.str [104, 105])
    (.fcons (.str [107]) (.number [0, 0, 0, 0, 0, 0, 240, 63])
      (.fcons (.boolean true) (.table .fnil) .fnil)))

/-- A glob matcher that matches nothing (the granter paths under study
never consult it). -/
def gmNone : CStr → CStr → Bool := fun _ _ => false

/-- A parent VM state's pledge store: one `fs:read` grant for
`/tmp/a`, sealed, with the fs granter registered. -/
def parentC1 : PledgeStore :=
  { entries := [{ name := "fs:read".toList, values := ["/tmp/a".toList], rejected := false }],
    sealed := true,
    granters := [("fs".toList, .fs)],
    error_msg := none }

/-- A store holding a rejected (and otherwise empty) `fs:read` entry,
not sealed, fs granter registered. -/
def rejStore : PledgeStore :=
  { entries := [{ name := "fs:read".toList, values := [], rejected := true }],
    sealed := false,
    granters := [("fs".toList, .fs)],
    error_msg := none }

/-- The store `pledge("seal")` leaves behind when starting from an empty
store. -/
def sealedStore : PledgeStore :=
  (luaB_pledge gmNone emptyPledgeStore ["seal".toList]).1

/-- Side record of a coroutine suspended in `sleep(…)` until `d`: the
sleep path wrote the reason and the deadline into a zeroed record. -/
def sleepCoro (d : Int) : CoroState :=
  { detached := true, yield_reason := .sleep, yield_fd := 0,
    yield_events := 0, yield_deadline := d, yield_task := none }

/-- Side record of a coroutine suspended waiting for fd `fd` with
interest `events`. -/
def ioCoro (fd : Int) (events : Nat) : CoroState :=
  { detached := true, yield_reason := .ioWait, yield_fd := fd,
    yield_events := events, yield_deadline := 0, yield_task := none }

/-- An otherwise empty scheduler state with the given side table and
scripts. -/
def baseSched (corostate : List (Nat × CoroState))
    (scripts : List (Nat × List ResumeOutcome)) : SchedState :=
  { pending := [], pending_count := 0, pending_error := none,
    backend := [], anchored := [], corostate := corostate, scripts := scripts }

/-- Two sleepers, deadline 5, both completing when resumed: coroutine 1
added to the pending set first, then coroutine 2. -/
def stC2 : SchedState :=
  scheduler_add_pending
    (scheduler_add_pending
      (baseSched [(1, sleepCoro 5), (2, sleepCoro 5)]
        [(1, [.complete]), (2, [.complete])])
      1 (-1) 0 5)
    2 (-1) 0 5

/-- One coroutine waiting on fd 5; when resumed it immediately suspends
on fd 5 again, then completes on the resumption after that. -/
def stC3 : SchedState :=
  scheduler_add_pending
    (baseSched [(1, ioCoro 5 1)] [(1, [.yieldIoWait 5 1, .complete])])
    1 5 1 0

/-- One expired sleeper whose resumption raises `"boom"`. -/
def stC4 : SchedState :=
  scheduler_add_pending
    (baseSched [(1, sleepCoro 5)] [(1, [.fail "boom"])])
    1 (-1) 0 5

/-! # Theorems -/

/-! ## Little-endian byte strings -/

theorem toLE_length (k n : Nat) : (toLE k n).length = k := by
  induction k generalizing n with
  | zero => simp [toLE]
  | succ k ih => simp [toLE, ih]

theorem fromLE_toLE (k n : Nat) : fromLE (toLE k n) = n % 256 ^ k := by
  induction k generalizing n with
  | zero => simp [toLE, fromLE, Nat.mod_one]
  | succ k ih =>
    have h : 256 ^ (k + 1) = 256 * 256 ^ k := by ring
    rw [toLE, fromLE, ih, h, Nat.mod_mul]

theorem deser_read_exact (bs rest : List Nat) :
    deser_read bs.length (bs ++ rest) = some (bs, rest) := by
  unfold deser_read
  rw [if_neg (by simp)]
  simp

/-- Storing a `lua_Integer` as its 8 bytes and loading them back is the
identity on the 64-bit signed range. -/
theorem int64_roundtrip (i : Int) (h1 : -(2 ^ 63) ≤ i) (h2 : i < 2 ^ 63) :
    toSigned64 (fromLE (intToBytes8 i)) = i := by
  unfold toSigned64 intToBytes8
  rw [fromLE_toLE]
  have hmod1 : (0 : Int) ≤ i.emod (2 ^ 64) := Int.emod_nonneg i (by norm_num)
  have hmod2 : i.emod (2 ^ 64) < 2 ^ 64 := Int.emod_lt_of_pos i (by norm_num)
  have hcast : (((i.emod (2 ^ 64)).toNat : Nat) : Int) = i.emod (2 ^ 64) :=
    Int.toNat_of_nonneg hmod1
  have hsmall : (i.emod (2 ^ 64)).toNat % 256 ^ 8 = (i.emod (2 ^ 64)).toNat := by
    apply Nat.mod_eq_of_lt
    have : ((256 : Nat) ^ 8) = 2 ^ 64 := by norm_num
    omega
  rw [hsmall]
  have hdm : 2 ^ 64 * (i.ediv (2 ^ 64)) + i.emod (2 ^ 64) = i :=
    Int.ediv_add_emod i (2 ^ 64)
  split <;> omega

/-! ## Mailbox serialization: round trip (C7) and failure set (C8) -/

mutual
theorem serialize_value_len (v : LuaValue) (d : Nat) (bs : List Nat)
    (h : serialize_value v d = some bs) : fuelV v ≤ bs.length := by
  cases v with
  | nil =>
    simp only [serialize_value, Option.some.injEq] at h
    subst h; simp [fuelV]
  | boolean b =>
    simp only [serialize_value, Option.some.injEq] at h
    subst h; simp [fuelV]
  | integer i =>
    simp only [serialize_value, Option.some.injEq] at h
    subst h; simp [fuelV]
  | number bits =>
    simp only [serialize_value, Option.some.injEq] at h
    subst h; simp [fuelV]
  | str s =>
    simp only [serialize_value, Option.some.injEq] at h
    subst h; simp [fuelV]
  | func => simp [serialize_value] at h
  | thread => simp [serialize_value] at h
  | userdata => simp [serialize_value] at h
  | table fields =>
    rw [serialize_value] at h
    by_cases hd : d > 100
    · simp [hd] at h
    · simp only [hd, if_false] at h
      cases hb : serialize_fields fields d with
      | none => rw [hb] at h; simp at h
      | some body =>
        rw [hb] at h
        have h' : SER_TABLE :: (intToBytes8 (fields.count : Int) ++ body) = bs := by
          simpa using h
        subst h'
        have := serialize_fields_len fields d body hb
        simp [fuelV, List.length_append, toLE_length, intToBytes8]
        omega

theorem serialize_fields_len (fs : LuaFields) (d : Nat) (bs : List Nat)
    (h : serialize_fields fs d = some bs) : fuelF fs ≤ bs.length := by
  cases fs with
  | fnil => simp_all [serialize_fields, fuelF]
  | fcons k v rest =>
    rw [serialize_fields] at h
    cases hk : serialize_value k (d + 1) with
    | none => rw [hk] at h; simp at h
    | some bk =>
      cases hv : serialize_value v (d + 1) with
      | none => rw [hk, hv] at h; simp at h
      | some bv =>
        cases hr : serialize_fields rest d with
        | none => rw [hk, hv, hr] at h; simp at h
        | some br =>
          rw [hk, hv, hr] at h
          have h' : bk ++ bv ++ br = bs := by simpa using h
          subst h'
          have h1 := serialize_value_len k (d + 1) bk hk
          have h2 := serialize_value_len v (d + 1) bv hv
          have h3 := serialize_fields_len rest d br hr
          simp [fuelF, List.length_append]
          omega
end

mutual
/-- Deserializing the serializer's output reproduces the value, leaving
any trailing bytes untouched, for any fuel at least the value's nesting
need. -/
theorem deserialize_serialize_value (v : LuaValue) :
    ∀ (d : Nat) (bs : List Nat), reprOkV v = true → serialize_value v d = some bs →
    ∀ (fuel : Nat), fuelV v ≤ fuel → ∀ (rest : List Nat),
    deserialize_value fuel (bs ++ rest) = some (v, rest) := by
  intro d bs hok hser fuel hfuel rest
  cases v with
  | nil =>
    simp only [serialize_value, Option.some.injEq] at hser
    subst hser
    have h1 : 1 ≤ fuel := by simpa [fuelV] using hfuel
    obtain ⟨f, rfl⟩ : ∃ f, fuel = f + 1 := ⟨fuel - 1, by omega⟩
    rw [deserialize_value.eq_def]; simp [SER_NIL]
  | boolean b =>
    simp only [serialize_value, Option.some.injEq] at hser
    subst hser
    have h1 : 1 ≤ fuel := by simpa [fuelV] using hfuel
    obtain ⟨f, rfl⟩ : ∃ f, fuel = f + 1 := ⟨fuel - 1, by omega⟩
    cases b <;>
      · rw [deserialize_value.eq_def]; simp [SER_NIL, SER_BOOL]
  | integer i =>
    simp only [serialize_value, Option.some.injEq] at hser
    subst hser
    have h1 : 1 ≤ fuel := by simpa [fuelV] using hfuel
    obtain ⟨f, rfl⟩ : ∃ f, fuel = f + 1 := ⟨fuel - 1, by omega⟩
    have hok' : -(2 ^ 63) ≤ i ∧ i < 2 ^ 63 := by simpa [reprOkV] using hok
    have hlen : (intToBytes8 i).length = 8 := by simp [intToBytes8, toLE_length]
    have hread : deser_read 8 (intToBytes8 i ++ rest) = some (intToBytes8 i, rest) := by
      rw [← hlen]; exact deser_read_exact _ _
    rw [deserialize_value.eq_def]
    simp [SER_NIL, SER_BOOL, SER_INT, hread, int64_roundtrip i hok'.1 hok'.2]
  | number bits =>
    simp only [serialize_value, Option.some.injEq] at hser
    subst hser
    have h1 : 1 ≤ fuel := by simpa [fuelV] using hfuel
    obtain ⟨f, rfl⟩ : ∃ f, fuel = f + 1 := ⟨fuel - 1, by omega⟩
    have hlen : bits.length = 8 := by simpa [reprOkV] using hok
    have hread : deser_read 8 (bits ++ rest) = some (bits, rest) := by
      rw [← hlen]; exact deser_read_exact _ _
    rw [deserialize_value.eq_def]
    simp [SER_NIL, SER_BOOL, SER_INT, SER_NUM, hread]
  | str s =>
    simp only [serialize_value, Option.some.injEq] at hser
    subst hser
    have h1 : 1 ≤ fuel := by simpa [fuelV] using hfuel
    obtain ⟨f, rfl⟩ : ∃ f, fuel = f + 1 := ⟨fuel - 1, by omega⟩
    have hok' : s.length < 2 ^ 64 := by simpa [reprOkV] using hok
    have hlen : (toLE 8 s.length).length = 8 := toLE_length 8 _
    have hread : deser_read 8 (toLE 8 s.length ++ (s ++ rest)) =
        some (toLE 8 s.length, s ++ rest) := by
      rw [← hlen]; exact deser_read_exact _ _
    have hval : fromLE (toLE 8 s.length) = s.length := by
      rw [fromLE_toLE]
      exact Nat.mod_eq_of_lt (by norm_num at hok' ⊢; omega)
    simp only [List.cons_append, List.append_assoc]
    rw [deserialize_value.eq_def]
    simp [SER_NIL, SER_BOOL, SER_INT, SER_NUM, SER_STRING, hread, hval,
      deser_read_exact]
  | func => simp [serialize_value] at hser
  | thread => simp [serialize_value] at hser
  | userdata => simp [serialize_value] at hser
  | table fields =>
    rw [serialize_value] at hser
    by_cases hd : d > 100
    · simp [hd] at hser
    · simp only [hd, if_false] at hser
      cases hb : serialize_fields fields d with
      | none => rw [hb] at hser; simp at hser
      | some body =>
        rw [hb] at hser
        have h' : SER_TABLE :: (intToBytes8 (fields.count : Int) ++ body) = bs := by
          simpa using hser
        subst h'
        have hokc : fields.count < 2 ^ 63 ∧ reprOkF fields = true := by
          simpa [reprOkV] using hok
        have hf : 1 + fuelF fields ≤ fuel := by simpa [fuelV] using hfuel
        obtain ⟨f, rfl⟩ : ∃ f, fuel = f + 1 := ⟨fuel - 1, by omega⟩
        have hlen : (intToBytes8 (fields.count : Int)).length = 8 := by
          simp [intToBytes8, toLE_length]
        have hread : deser_read 8 (intToBytes8 (fields.count : Int) ++ (body ++ rest)) =
            some (intToBytes8 (fields.count : Int), body ++ rest) := by
          rw [← hlen]; exact deser_read_exact _ _
        have hcount : toSigned64 (fromLE (intToBytes8 (fields.count : Int))) =
            (fields.count : Int) := by
          apply int64_roundtrip
          · have : (0 : Int) ≤ (fields.count : Int) := Int.natCast_nonneg _
            omega
          · exact_mod_cast hokc.1
        have hrec := deserialize_serialize_fields fields d body hokc.2 hb f
          (by omega) rest
        simp only [List.cons_append, List.append_assoc]
        rw [deserialize_value.eq_def]
        simp [SER_NIL, SER_BOOL, SER_INT, SER_NUM, SER_STRING, SER_TABLE, hread,
          hcount, hrec]

/-- Field lists round-trip: deserializing `count` pairs off the
serializer's output reproduces the field list. -/
theorem deserialize_serialize_fields (fs : LuaFields) :
    ∀ (d : Nat) (bs : List Nat), reprOkF fs = true → serialize_fields fs d = some bs →
    ∀ (fuel : Nat), fuelF fs ≤ fuel → ∀ (rest : List Nat),
    deserialize_fields fuel fs.count (bs ++ rest) = some (fs, rest) := by
  intro d bs hok hser fuel hfuel rest
  cases fs with
  | fnil =>
    simp only [serialize_fields, Option.some.injEq] at hser
    subst hser
    simp [deserialize_fields, LuaFields.count]
  | fcons k v r =>
    rw [serialize_fields] at hser
    cases hk : serialize_value k (d + 1) with
    | none => rw [hk] at hser; simp at hser
    | some bk =>
      cases hv : serialize_value v (d + 1) with
      | none => rw [hk, hv] at hser; simp at hser
      | some bv =>
        cases hr : serialize_fields r d with
        | none => rw [hk, hv, hr] at hser; simp at hser
        | some br =>
          rw [hk, hv, hr] at hser
          have h' : bk ++ bv ++ br = bs := by simpa using hser
          subst h'
          have hok3 : reprOkV k = true ∧ reprOkV v = true ∧ reprOkF r = true := by
            simpa [reprOkF, and_assoc] using hok
          have hfk : fuelV k ≤ fuel := le_trans (by simp [fuelF]) hfuel
          have hfv : fuelV v ≤ fuel := le_trans (by simp [fuelF]) hfuel
          have hfr : fuelF r ≤ fuel := le_trans (by simp [fuelF]) hfuel
          have hck : deserialize_value fuel (bk ++ (bv ++ (br ++ rest))) =
              some (k, bv ++ (br ++ rest)) :=
            deserialize_serialize_value k (d + 1) bk hok3.1 hk fuel hfk _
          have hcv : deserialize_value fuel (bv ++ (br ++ rest)) =
              some (v, br ++ rest) :=
            deserialize_serialize_value v (d + 1) bv hok3.2.1 hv fuel hfv _
          have hcr : deserialize_fields fuel r.count (br ++ rest) = some (r, rest) :=
            deserialize_serialize_fields r d br hok3.2.2 hr fuel hfr _
          have hcnt : (LuaFields.fcons k v r).count = r.count + 1 := by
            simp [LuaFields.count]; omega
          rw [hcnt]
          simp only [List.append_assoc]
          simp [deserialize_fields, hck, hcv, hcr]
end

/-- The fuel `deserialize` supplies is always sufficient for a value the
serializer produced. -/
theorem mailbox_roundtrip_aux (v : LuaValue) (bs : List Nat)
    (hok : reprOkV v = true) (hser : serialize_value v 0 = some bs) :
    deserialize bs = some (v, []) := by
  unfold deserialize
  have hlen := serialize_value_len v 0 bs hser
  have h := deserialize_serialize_value v 0 bs hok hser (bs.length + 1)
    (by omega) []
  simpa using h

/-- C7: For every serializable value (nil, boolean, integer, float,
string, or an acyclic table of serializable keys and values within the
depth limit), deserializing the bytes produced by the mailbox serializer
yields an equal value: nil maps to nil, booleans are preserved, integers
and floats are reproduced bit-exactly, strings byte-exactly, and tables
have the same key-value map.  (`reprOkV` says the value is
machine-representable; success of `serialize_value` says it is within
the depth limit and free of non-serializable parts; the reproduced value
is equal on the nose, so in particular the key-value map agrees.) -/
theorem mailbox_serialize_roundtrip (v : LuaValue) (bs : List Nat)
    (hok : reprOkV v = true) (hser : serialize_value v 0 = some bs) :
    deserialize bs = some (v, []) :=
  mailbox_roundtrip_aux v bs hok hser

theorem mailbox_serialize_roundtrip_witness :
    reprOkV sampleValue = true ∧
    serialize_value sampleValue 0 = some ((serialize_value sampleValue 0).getD []) ∧
    deserialize ((serialize_value sampleValue 0).getD []) = some (sampleValue, []) :=
  ⟨by decide, by decide,
   mailbox_serialize_roundtrip sampleValue ((serialize_value sampleValue 0).getD [])
     (by decide) (by decide)⟩

mutual
/-- Serialization of a value at depth `d ≤ 101` fails exactly on a
function/thread/userdata inside it or on nesting that overruns the depth
counter. -/
theorem serialize_value_none_iff (v : LuaValue) :
    ∀ d : Nat, d ≤ 101 →
    (serialize_value v d = none ↔ (hasBadV v = true ∨ 101 < d + tdepthV v)) := by
  intro d hd
  cases v with
  | nil => simp [serialize_value, hasBadV, tdepthV]; omega
  | boolean b => simp [serialize_value, hasBadV, tdepthV]; omega
  | integer i => simp [serialize_value, hasBadV, tdepthV]; omega
  | number bits => simp [serialize_value, hasBadV, tdepthV]; omega
  | str s => simp [serialize_value, hasBadV, tdepthV]; omega
  | func => simp [serialize_value, hasBadV]
  | thread => simp [serialize_value, hasBadV]
  | userdata => simp [serialize_value, hasBadV]
  | table fields =>
    rw [serialize_value]
    by_cases hgt : d > 100
    · simp only [hgt, if_true]
      simp [hasBadV, tdepthV]
      omega
    · simp only [hgt, if_false]
      have hrec := serialize_fields_none_iff fields d (by omega)
      constructor
      · intro h
        cases hb : serialize_fields fields d with
        | none =>
          have hx := hrec.mp hb
          simp only [hasBadV, tdepthV]
          rcases hx with hx | hx
          · exact Or.inl hx
          · right; omega
        | some body => rw [hb] at h; simp at h
      · intro h
        cases hb : serialize_fields fields d with
        | none => simp [hb]
        | some body =>
          exfalso
          have hnone : ¬ (serialize_fields fields d = none) := by simp [hb]
          rw [hrec] at hnone
          push_neg at hnone
          simp only [hasBadV, tdepthV] at h
          rcases h with h | h
          · exact hnone.1 h
          · have h2 := hnone.2; omega

/-- Serialization of a field list whose elements go out at depth
`d + 1 ≤ 101` fails exactly on a bad element or on element nesting
overrunning the counter. -/
theorem serialize_fields_none_iff (fs : LuaFields) :
    ∀ d : Nat, d ≤ 100 →
    (serialize_fields fs d = none ↔ (hasBadF fs = true ∨ 100 < d + tdepthF fs)) := by
  intro d hd
  cases fs with
  | fnil => simp [serialize_fields, hasBadF, tdepthF]; omega
  | fcons k v r =>
    have hkiff := serialize_value_none_iff k (d + 1) (by omega)
    have hviff := serialize_value_none_iff v (d + 1) (by omega)
    have hriff := serialize_fields_none_iff r d hd
    have hsplit : serialize_fields (.fcons k v r) d = none ↔
        (serialize_value k (d + 1) = none ∨ serialize_value v (d + 1) = none ∨
         serialize_fields r d = none) := by
      rw [serialize_fields]
      cases serialize_value k (d + 1) <;> cases serialize_value v (d + 1) <;>
        cases serialize_fields r d <;> simp
    rw [hsplit, hkiff, hviff, hriff]
    simp only [hasBadF, tdepthF, Bool.or_eq_true]
    constructor
    · rintro ((h | h) | (h | h) | (h | h))
      · exact Or.inl (Or.inl (Or.inl h))
      · right; omega
      · exact Or.inl (Or.inl (Or.inr h))
      · right; omega
      · exact Or.inl (Or.inr h)
      · right; omega
    · rintro (((h | h) | h) | h)
      · exact Or.inl (Or.inl h)
      · exact Or.inr (Or.inl (Or.inl h))
      · exact Or.inr (Or.inr (Or.inl h))
      · have h3 : 101 < d + 1 + tdepthV k ∨ 101 < d + 1 + tdepthV v ∨
            100 < d + tdepthF r := by omega
        rcases h3 with h3 | h3 | h3
        · exact Or.inl (Or.inr h3)
        · exact Or.inr (Or.inl (Or.inr h3))
        · exact Or.inr (Or.inr (Or.inr h3))
end

theorem chainTable_tdepth : ∀ n, tdepthV (chainTable n) = n
  | 0 => by simp [chainTable, tdepthV]
  | n + 1 => by
    simp [chainTable, tdepthV, tdepthF, chainTable_tdepth n]
    omega

theorem chainTable_hasBad : ∀ n, hasBadV (chainTable n) = false
  | 0 => by simp [chainTable, hasBadV]
  | n + 1 => by simp [chainTable, hasBadV, hasBadF, chainTable_hasBad n]

/-- C8 (amended): mailbox serialization of a value fails with a raised
error if and only if the value contains a function, thread, or opaque
userdata, or its table nesting depth exceeds 101 (not 100: the depth
counter starts at 0 on the outermost value and the `depth > 100` guard
errors only for a table already lying under more than 100 tables); for
all other values serialization succeeds. -/
theorem mailbox_serialize_fails_iff (v : LuaValue) :
    serialize_value v 0 = none ↔ (hasBadV v = true ∨ 101 < tdepthV v) := by
  have h := serialize_value_none_iff v 0 (by omega)
  simpa using h

/-- C8 counterexample: a chain of 101 nested tables has nesting depth
101 > 100 and contains no function, thread or userdata, yet its
serialization succeeds — the cap claimed as 100 does not fail there. -/
theorem mailbox_depth_cap_off_by_one :
    hasBadV (chainTable 101) = false ∧ 100 < tdepthV (chainTable 101) ∧
    serialize_value (chainTable 101) 0 ≠ none := by
  refine ⟨chainTable_hasBad 101, by rw [chainTable_tdepth]; omega, ?_⟩
  rw [Ne, serialize_value_none_iff _ 0 (by omega)]
  have ht := chainTable_tdepth 101
  push_neg
  exact ⟨by simp [chainTable_hasBad 101], by omega⟩

/-! ## Pledge store: worker inheritance (C1), seal idempotence (C5),
rejected entries (C6) -/

/-- C1: the pledge store of a freshly created worker.  The spec requires
a deep copy of the parent's store (entries, values, sealed flag, granter
registrations); the code gives every worker a fresh store carrying only
the granter registrations that opening the standard libraries re-creates
— here evaluated at a parent whose store holds an `fs:read` grant for
`/tmp/a` and is sealed.  `luaP_copypledges`, the deep copy the spec
describes, is never invoked on the worker path, and its result differs
from what the worker actually receives. -/
theorem worker_pledges_not_inherited :
    worker_initial_pledges (some parentC1) =
      some { entries := [], sealed := false,
             granters := [("fs".toList, .fs)], error_msg := none } ∧
    luaP_copypledges (some parentC1) = some parentC1 ∧
    worker_initial_pledges (some parentC1) ≠ luaP_copypledges (some parentC1) :=
  ⟨by decide, by decide, by decide⟩

/-- C5 counterexample: once `pledge("seal")` has sealed the store, a
further `pledge("seal")` call still returns `true` — not `false` as
claimed — although the store is left unchanged. -/
theorem pledge_seal_returns_true_when_sealed :
    sealedStore.sealed = true ∧
    luaB_pledge gmNone sealedStore ["seal".toList] = (sealedStore, .ok [true]) :=
  ⟨by decide, by decide⟩

/-- C5 (amended): after a `pledge("seal")` call has sealed the store,
every further single-argument `pledge` call leaves the store unchanged;
an argument whose parsed name is `"seal"` yields `true`, an argument
parsing to `"all"` or exceeding the name/value length limits raises an
error, and every other argument yields `false`. -/
theorem pledge_sealed_terminal (gm : CStr → CStr → Bool) (store : PledgeStore)
    (a : CStr) (hsealed : store.sealed = true) :
    luaB_pledge gm store [a] =
      (store,
       if (parsepledge a).2.1.length ≥ MAX_PLEDGE_NAME then .error ()
       else if (match (parsepledge a).2.2 with
                | some v => v.length > 0 && v.length ≥ 1024
                | none => false) then .error ()
       else if (parsepledge a).2.1 = "all".toList then .error ()
       else if (parsepledge a).2.1 = "seal".toList then .ok [true]
       else .ok [false]) := by
  have hstore1 : { store with sealed := true } = store := by
    cases store
    simp_all
  rcases hparse : parsepledge a with ⟨rej, name, value⟩
  rw [luaB_pledge, hparse]
  simp only [hparse]
  split_ifs <;> simp_all [luaB_pledge, hstore1, hsealed]

theorem pledge_sealed_terminal_witness :
    sealedStore.sealed = true ∧
    luaB_pledge gmNone sealedStore ["fs".toList] = (sealedStore, .ok [false]) := by
  refine ⟨by decide, ?_⟩
  rw [pledge_sealed_terminal gmNone sealedStore "fs".toList (by decide)]
  decide

/-- C6: the rejected flag does not stop C-level grants.  At a non-sealed
store whose `fs:read` entry is rejected, `lus_pledge(L, "fs:read",
"/x")` runs the fs granter, which confirms via `lus_setpledge`; the
value `/x` is added to the rejected entry and the call reports the grant
as successful — contradicting the invariant (and the header comment of
`lus_pledge`, which documents a rejected permission as failing with 0). -/
theorem rejected_entry_still_grants :
    (findentry rejStore "fs:read".toList).map PledgeEntry.rejected = some true ∧
    rejStore.sealed = false ∧
    lus_pledge gmNone rejStore "fs:read".toList (some "/x".toList) =
      ({ entries := [{ name := "fs:read".toList, values := ["/x".toList],
                       rejected := true }],
         sealed := false, granters := [("fs".toList, .fs)], error_msg := none },
       .ok true) :=
  ⟨by decide, by decide, by decide⟩

/-! ## Scheduler: poll order (C2), per-cycle resumption (C3), error
surfacing (C4) -/

/-- C2 counterexample: coroutine 1's entry is added to the pending set
before coroutine 2's; both deadlines (5) have passed at `now = 10`, yet
`scheduler_poll` resumes coroutine 2 first — `scheduler_add_pending`
pushes at the list head, so the scan runs in reverse insertion order,
not FIFO. -/
theorem scheduler_poll_not_fifo :
    stC2.pending.map PendingCoroutine.co = [2, 1] ∧
    (scheduler_poll stC2 (-1) 10 10 [] []).resumed = [2, 1] :=
  ⟨by decide, by decide⟩

/-- C2 (amended): ready pending entries are examined and resumed in
reverse insertion (LIFO) order: when A's entry was added by
`scheduler_add_pending` before B's and both are ready in the same cycle,
B's coroutine is resumed before A's, regardless of the backend's batch
(empty here: both are expired timers). -/
theorem scheduler_poll_reverse_insertion_order
    (co1 co2 : Nat) (d1 d2 now0 now : Int) (hne : co1 ≠ co2)
    (h1 : 0 < d1) (h2 : d1 ≤ now) (h3 : 0 < d2) (h4 : d2 ≤ now) :
    (scheduler_poll
      (scheduler_add_pending
        (scheduler_add_pending
          (baseSched [(co1, sleepCoro d1), (co2, sleepCoro d2)]
            [(co1, [.complete]), (co2, [.complete])])
          co1 (-1) 0 d1)
        co2 (-1) 0 d2)
      (-1) now0 now [] []).resumed = [co2, co1] := by
  simp [scheduler_add_pending, addPendingFields, baseSched, scheduler_poll,
    totalOutcomes, pollLoop, entryReady, getYieldReason, getYieldTask,
    getYieldFd, getYieldEvents, getYieldDeadline, getCoro, setCoro, popOutcome,
    applyOutcome, sleepCoro, backendRemove, hne, Ne.symm hne, h1, h2, h3, h4,
    Int.le_of_lt]

theorem scheduler_poll_reverse_insertion_order_witness :
    (3 : Nat) ≠ 7 ∧ (0 : Int) < 5 ∧ (5 : Int) ≤ 10 ∧
    (scheduler_poll
      (scheduler_add_pending
        (scheduler_add_pending
          (baseSched [(3, sleepCoro 5), (7, sleepCoro 5)]
            [(3, [.complete]), (7, [.complete])])
          3 (-1) 0 5)
        7 (-1) 0 5)
      (-1) 0 10 [] []).resumed = [7, 3] :=
  ⟨by decide, by decide, by decide,
   scheduler_poll_reverse_insertion_order 3 7 5 5 0 10 (by decide) (by decide)
     (by decide) (by decide) (by decide)⟩

/-- C3 counterexample: a single pending coroutine waits on fd 5; the
backend reports fd 5 ready.  The coroutine is resumed, immediately
suspends on fd 5 again, and — because its removed entry was the list
head — the re-admitted entry sits exactly at the scan position and fd 5
is still in this cycle's batch, so the same coroutine is resumed a
second time within the one `scheduler_poll` call. -/
theorem scheduler_poll_resumes_twice :
    (scheduler_poll stC3 (-1) 10 10 [⟨5, 1⟩] []).resumed = [1, 1] ∧
    ((scheduler_poll stC3 (-1) 10 10 [⟨5, 1⟩] []).resumed.count 1 = 2) :=
  ⟨by decide, by decide⟩

/-- C3 (amended): a coroutine resumed from an entry that was NOT at the
head of the pending list is not resumed again in the same cycle even
when it re-admits itself with an already-satisfied wait: the re-admitted
entry is pushed at the global list head, which the scan has already
passed.  Here a not-yet-due sleeper sits in front of the fd-5 waiter;
the waiter is resumed once, suspends on the still-ready fd 5 again, and
is not resumed a second time. -/
theorem scheduler_poll_once_behind_head
    (coX co : Nat) (dX now0 now : Int) (hne : coX ≠ co)
    (hd1 : 0 < dX) (hd2 : now < dX) :
    (scheduler_poll
      (scheduler_add_pending
        (scheduler_add_pending
          (baseSched [(coX, sleepCoro dX), (co, ioCoro 5 1)]
            [(coX, [.complete]), (co, [.yieldIoWait 5 1])])
          co 5 1 0)
        coX (-1) 0 dX)
      (-1) now0 now [⟨5, 1⟩] []).resumed = [co] := by
  simp [scheduler_add_pending, addPendingFields, baseSched, scheduler_poll,
    totalOutcomes, pollLoop, entryReady, getYieldReason, getYieldTask,
    getYieldFd, getYieldEvents, getYieldDeadline, getCoro, setCoro, popOutcome,
    applyOutcome, sleepCoro, ioCoro, backendRemove, ResumeOutcome.isYield, hne,
    Ne.symm hne, hd1, not_le.mpr hd2]

theorem scheduler_poll_once_behind_head_witness :
    (3 : Nat) ≠ 7 ∧ (0 : Int) < 99 ∧ (10 : Int) < 99 ∧
    (scheduler_poll
      (scheduler_add_pending
        (scheduler_add_pending
          (baseSched [(3, sleepCoro 99), (7, ioCoro 5 1)]
            [(3, [.complete]), (7, [.yieldIoWait 5 1])])
          7 5 1 0)
        3 (-1) 0 99)
      (-1) 0 10 [⟨5, 1⟩] []).resumed = [7] :=
  ⟨by decide, by decide, by decide,
   scheduler_poll_once_behind_head 3 7 99 0 10 (by decide) (by decide) (by decide)⟩

/-- C4 counterexample: with no error stored at entry, a resumption that
raises `"boom"` has its message raised by the SAME `scheduler_poll` call
(after the scan), leaving nothing stored for the next call — the claim's
"does not raise it during that call; the next call raises it" does not
hold. -/
theorem scheduler_poll_raises_same_call :
    stC4.pending_error = none ∧
    (scheduler_poll stC4 (-1) 10 10 [] []).resumed = [1] ∧
    (scheduler_poll stC4 (-1) 10 10 [] []).raised = some "boom" ∧
    (scheduler_poll stC4 (-1) 10 10 [] []).st.pending_error = none :=
  ⟨by decide, by decide, by decide, by decide⟩

/-- C4 (amended): a stored pending error is raised (and cleared) at the
top of a `scheduler_poll` call before any processing; an error stashed
by a failed resumption during the scan is raised at the end of the SAME
call, after the remaining entries are processed; when several
resumptions error in one cycle, only the most recent message is
retained and raised (here both expired sleepers error: the list-head
entry of `co2` runs first with `m2`, then `co1` overwrites with `m1`,
and `m1` is raised with nothing left stored). -/
theorem scheduler_poll_error_semantics :
    (∀ (st : SchedState) (timeout now0 now : Int) (results : List EventResult)
       (doneTasks : List Nat) (e : String), st.pending_error = some e →
       scheduler_poll st timeout now0 now results doneTasks =
         { st := { st with pending_error := none }, resumed := [], raised := some e }) ∧
    (∀ (co1 co2 : Nat) (m1 m2 : String) (d1 d2 now0 now : Int), co1 ≠ co2 →
       0 < d1 → d1 ≤ now → 0 < d2 → d2 ≤ now →
       (scheduler_poll
          (scheduler_add_pending
            (scheduler_add_pending
              (baseSched [(co1, sleepCoro d1), (co2, sleepCoro d2)]
                [(co1, [.fail m1]), (co2, [.fail m2])])
              co1 (-1) 0 d1)
            co2 (-1) 0 d2)
          (-1) now0 now [] []).resumed = [co2, co1] ∧
       (scheduler_poll
          (scheduler_add_pending
            (scheduler_add_pending
              (baseSched [(co1, sleepCoro d1), (co2, sleepCoro d2)]
                [(co1, [.fail m1]), (co2, [.fail m2])])
              co1 (-1) 0 d1)
            co2 (-1) 0 d2)
          (-1) now0 now [] []).raised = some m1 ∧
       (scheduler_poll
          (scheduler_add_pending
            (scheduler_add_pending
              (baseSched [(co1, sleepCoro d1), (co2, sleepCoro d2)]
                [(co1, [.fail m1]), (co2, [.fail m2])])
              co1 (-1) 0 d1)
            co2 (-1) 0 d2)
          (-1) now0 now [] []).st.pending_error = none) := by
  constructor
  · intro st timeout now0 now results doneTasks e he
    rw [scheduler_poll, he]
  · intro co1 co2 m1 m2 d1 d2 now0 now hne h1 h2 h3 h4
    refine ⟨?_, ?_, ?_⟩ <;>
      simp [scheduler_add_pending, addPendingFields, baseSched, scheduler_poll,
        totalOutcomes, pollLoop, entryReady, getYieldReason, getYieldTask,
        getYieldFd, getYieldEvents, getYieldDeadline, getCoro, setCoro,
        popOutcome, applyOutcome, sleepCoro, backendRemove, hne, Ne.symm hne,
        h1, h2, h3, h4]

theorem scheduler_poll_error_semantics_witness :
    ({ baseSched [] [] with pending_error := some "early" } : SchedState).pending_error
        = some "early" ∧
    scheduler_poll { baseSched [] [] with pending_error := some "early" }
        (-1) 0 0 [] [] =
      { st := baseSched [] [], resumed := [], raised := some "early" } ∧
    (scheduler_poll
       (scheduler_add_pending
         (scheduler_add_pending
           (baseSched [(3, sleepCoro 5), (7, sleepCoro 5)]
             [(3, [.fail "m1"]), (7, [.fail "m2"])])
           3 (-1) 0 5)
         7 (-1) 0 5)
       (-1) 0 10 [] []).raised = some "m1" := by
  refine ⟨by decide, ?_, ?_⟩
  · have h := scheduler_poll_error_semantics.1
      { baseSched [] [] with pending_error := some "early" } (-1) 0 0 [] []
      "early" (by decide)
    exact h.trans (by decide)
  · exact (scheduler_poll_error_semantics.2 3 7 "m1" "m2" 5 5 0 10 (by decide)
      (by decide) (by decide) (by decide) (by decide)).2.1

/-! ## Multi-worker receive: error checked before outbox (C10) -/

/-- Scan lemma: with any workers before `w` neither errored-with-message
nor holding outbox messages, the scan reaches `w` and raises its error
message, whatever `w`'s outbox holds. -/
theorem receiveScanFrom_raises (pre : List WorkerSnapshot) :
    ∀ (idx : Nat) (allDead : Bool) (w : WorkerSnapshot) (post : List WorkerSnapshot)
      (m : String),
    (∀ p ∈ pre, ¬(p.status = .error ∧ p.error_msg.isSome) ∧ p.outbox = []) →
    w.status = .error → w.error_msg = some m →
    receiveScanFrom idx allDead (pre ++ w :: post) = .raise m := by
  induction pre with
  | nil =>
    intro idx allDead w post m _ hst hmsg
    simp [receiveScanFrom, hst, hmsg]
  | cons p pre ih =>
    intro idx allDead w post m hpre hst hmsg
    have hp := hpre p (by simp)
    rw [List.cons_append, receiveScanFrom]
    rw [if_neg hp.1, hp.2]
    exact ih (idx + 1) _ w post m (fun q hq => hpre q (by simp [hq])) hst hmsg

/-- Scan lemma: a delivery at position `i` comes from a worker that was
not errored-with-message (its error check ran first and fell through). -/
theorem receiveScanFrom_deliver_not_errored :
    ∀ (ws : List WorkerSnapshot) (idx : Nat) (allDead : Bool) (i : Nat) (v : LuaValue),
    receiveScanFrom idx allDead ws = .deliver i v →
    idx ≤ i ∧ ∃ w, ws.get? (i - idx) = some w ∧
      ¬(w.status = .error ∧ w.error_msg.isSome) := by
  intro ws
  induction ws with
  | nil =>
    intro idx allDead i v h
    simp [receiveScanFrom] at h
    split at h <;> simp_all
  | cons w0 rest ih =>
    intro idx allDead i v h
    rw [receiveScanFrom] at h
    by_cases herr : w0.status = .error ∧ w0.error_msg.isSome
    · rw [if_pos herr] at h
      simp at h
    · rw [if_neg herr] at h
      cases hob : w0.outbox with
      | cons msg rest' =>
        rw [hob] at h
        dsimp only at h
        cases hdes : deserialize msg with
        | some pr =>
          obtain ⟨pv, prest⟩ := pr
          rw [hdes] at h
          simp at h
          obtain ⟨rfl, rfl⟩ := h
          exact ⟨le_refl _, w0, by simp, herr⟩
        | none => rw [hdes] at h; simp at h
      | nil =>
        rw [hob] at h
        dsimp only at h
        have hres := ih (idx + 1) _ i v h
        refine ⟨by omega, ?_⟩
        obtain ⟨hle, w', hw', hcond⟩ := hres
        refine ⟨w', ?_, hcond⟩
        have : i - idx = (i - (idx + 1)) + 1 := by omega
        rw [this]
        simpa using hw'

/-- C10: in every `lib_receive` scan, for each listed worker the errored
status is checked before that worker's outbox is inspected: a worker
that has errored (with a recorded message) makes the call raise its
error message even if that same worker still has undelivered messages
queued in its outbox (first conjunct: workers before it neither raise
nor deliver, and `w.outbox` is arbitrary); and a delivery never comes
from an errored worker, so the queued messages of an errored worker are
never returned (second conjunct). -/
theorem receive_error_before_outbox :
    (∀ (pre : List WorkerSnapshot) (w : WorkerSnapshot) (post : List WorkerSnapshot)
       (m : String),
       (∀ p ∈ pre, ¬(p.status = .error ∧ p.error_msg.isSome) ∧ p.outbox = []) →
       w.status = .error → w.error_msg = some m →
       receiveScan (pre ++ w :: post) = .raise m) ∧
    (∀ (ws : List WorkerSnapshot) (i : Nat) (v : LuaValue),
       receiveScan ws = .deliver i v →
       ∃ w, ws.get? i = some w ∧ ¬(w.status = .error ∧ w.error_msg.isSome)) := by
  constructor
  · intro pre w post m hpre hst hmsg
    have hmain := receiveScanFrom_raises pre 0 true w post m hpre hst hmsg
    cases pre with
    | nil => simpa [receiveScan] using hmain
    | cons p pre' => simpa [receiveScan] using hmain
  · intro ws i v h
    cases ws with
    | nil => simp [receiveScan] at h
    | cons w0 rest =>
      have h2 : receiveScanFrom 0 true (w0 :: rest) = .deliver i v := h
      have hres := receiveScanFrom_deliver_not_errored (w0 :: rest) 0 true i v h2
      obtain ⟨_, w, hw, hcond⟩ := hres
      exact ⟨w, by simpa using hw, hcond⟩

theorem receive_error_before_outbox_witness :
    receiveScan [⟨.running, none, []⟩, ⟨.error, some "werr", [[0]]⟩] = .raise "werr" ∧
    (deserialize [0] = some (.nil, []) ∧
     receiveScan [⟨.running, none, [[0]]⟩] = .deliver 0 .nil ∧
     ∃ w, [(⟨.running, none, [[0]]⟩ : WorkerSnapshot)].get? 0 = some w ∧
       ¬(w.status = .error ∧ w.error_msg.isSome)) := by
  have hd : deserialize [0] = some (.nil, []) :=
    mailbox_roundtrip_aux .nil [0] (by decide) (by decide)
  have hscan : receiveScan [⟨.running, none, [[0]]⟩] = .deliver 0 .nil := by
    show receiveScanFrom 0 true [⟨.running, none, [[0]]⟩] = .deliver 0 .nil
    rw [receiveScanFrom]
    simp [hd]
  refine ⟨?_, hd, hscan, ?_⟩
  · exact receive_error_before_outbox.1 [⟨.running, none, []⟩]
      ⟨.error, some "werr", [[0]]⟩ [] "werr" (by decide) (by decide) (by decide)
  · exact receive_error_before_outbox.2 [⟨.running, none, [[0]]⟩] 0 .nil hscan

/-! ## Standalone bundle round trip (C9) -/

theorem readU16_toLE (n : Nat) (rest : List Nat) (h : n < 2 ^ 16) :
    readU16 (toLE 2 n ++ rest) = some (n, rest) := by
  simp only [toLE, readU16, List.cons_append, List.nil_append]
  congr 1
  congr 1
  omega

theorem readU32_toLE (n : Nat) (rest : List Nat) (h : n < 2 ^ 32) :
    readU32 (toLE 4 n ++ rest) = some (n, rest) := by
  simp only [toLE, readU32, List.cons_append, List.nil_append]
  congr 1
  congr 1
  omega

theorem readChunk_exact (bs rest : List Nat) :
    readChunk bs.length (bs ++ rest) = some (bs, rest) := by
  unfold readChunk
  rw [if_neg (by simp)]
  simp

/-- The args loop parses back exactly what `lusB_buildindex` wrote. -/
theorem parseArgs_roundtrip (args : List (List Nat)) :
    ∀ (rest : List Nat), (∀ a ∈ args, a.length < 2 ^ 16) →
    parseArgs args.length
      ((args.map (fun a => toLE 2 a.length ++ a)).flatten ++ rest) =
      some (args, rest) := by
  induction args with
  | nil => intro rest _; rfl
  | cons a args ih =>
    intro rest hlen
    have ha : a.length < 2 ^ 16 := hlen a (by simp)
    rw [List.length_cons]
    rw [parseArgs]
    simp only [List.map_cons, List.flatten_cons, List.append_assoc]
    rw [readU16_toLE a.length _ ha]
    simp only [Option.bind_eq_bind, Option.some_bind]
    rw [readChunk_exact a _]
    simp only [Option.bind_eq_bind, Option.some_bind]
    rw [ih rest (fun x hx => hlen x (by simp [hx]))]
    simp

/-- The files loop parses back exactly what `lusB_buildindex` wrote,
given in-range names, offsets and sizes. -/
theorem parseFiles_roundtrip (files : List LusBundleFile) :
    ∀ (rest : List Nat),
    (∀ f ∈ files, f.name.length < LUSB_MAX_NAME ∧ f.offset < 2 ^ 32 ∧
      f.size < 2 ^ 32) →
    parseFiles files.length
      ((files.map (fun f => toLE 2 f.name.length ++ (f.name
          ++ (toLE 4 f.offset ++ toLE 4 f.size)))).flatten ++ rest) =
      some (files, rest) := by
  induction files with
  | nil => intro rest _; rfl
  | cons f files ih =>
    intro rest hok
    have hf := hok f (by simp)
    have hname16 : f.name.length < 2 ^ 16 := by
      have := hf.1; unfold LUSB_MAX_NAME at this; omega
    rw [List.length_cons]
    rw [parseFiles]
    simp only [List.map_cons, List.flatten_cons, List.append_assoc]
    rw [readU16_toLE f.name.length _ hname16]
    simp only [Option.bind_eq_bind, Option.some_bind]
    rw [if_neg (by have := hf.1; omega)]
    rw [readChunk_exact f.name _]
    simp only [Option.bind_eq_bind, Option.some_bind]
    rw [readU32_toLE f.offset _ hf.2.1]
    simp only [Option.bind_eq_bind, Option.some_bind]
    rw [readU32_toLE f.size _ hf.2.2]
    simp only [Option.bind_eq_bind, Option.some_bind]
    rw [ih rest (fun x hx => hok x (by simp [hx]))]
    simp

/-- `sumSizes` distributes over cons. -/
theorem sumSizes_cons (nm bc : List Nat) (rest : List (List Nat × List Nat)) :
    sumSizes ((nm, bc) :: rest) = bc.length + sumSizes rest := by
  simp [sumSizes]

/-- The sequential layout's maximal `offset + size` is the total size. -/
theorem totalBytecode_seqFiles_aux (blobs : List (List Nat × List Nat)) :
    ∀ (off acc : Nat), acc ≤ off →
    (seqFiles off blobs).foldl (fun t f => max t (f.offset + f.size)) acc =
      (if blobs.isEmpty then acc else off + sumSizes blobs) := by
  induction blobs with
  | nil => intro off acc _; simp [seqFiles]
  | cons b rest ih =>
    intro off acc hacc
    obtain ⟨nm, bc⟩ := b
    rw [seqFiles]
    rw [List.foldl_cons]
    have hmax : max acc (off + bc.length) = off + bc.length :=
      max_eq_right (by omega)
    rw [hmax]
    rw [ih (off + bc.length) (off + bc.length) (le_refl _)]
    rw [sumSizes_cons]
    cases rest with
    | nil => simp [sumSizes]
    | cons r rest' =>
      simp only [List.isEmpty_cons, Bool.false_eq_true, if_false]
      omega

theorem totalBytecode_seqFiles (blobs : List (List Nat × List Nat)) :
    totalBytecode (seqFiles 0 blobs) = sumSizes blobs := by
  unfold totalBytecode
  rw [totalBytecode_seqFiles_aux blobs 0 0 (le_refl _)]
  cases blobs <;> simp [sumSizes]

/-- Length of the concatenated blob region. -/
theorem flatten_blobs_length (blobs : List (List Nat × List Nat)) :
    ((blobs.map (·.2)).flatten).length = sumSizes blobs := by
  rw [List.length_flatten, List.map_map]
  rfl

/-- Lengths of the `seqFiles` layout agree with the blob list. -/
theorem seqFiles_length (blobs : List (List Nat × List Nat)) :
    ∀ off, (seqFiles off blobs).length = blobs.length := by
  induction blobs with
  | nil => intro off; simp [seqFiles]
  | cons b rest ih =>
    intro off
    obtain ⟨nm, bc⟩ := b
    rw [seqFiles]
    simp [ih]

/-- Per-entry bounds of the sequential layout. -/
theorem seqFiles_mem_bounds (blobs : List (List Nat × List Nat)) :
    ∀ (off : Nat) (f : LusBundleFile), f ∈ seqFiles off blobs →
    (∃ p ∈ blobs, f.name = p.1 ∧ f.size = p.2.length) ∧
    off ≤ f.offset ∧ f.offset + f.size ≤ off + sumSizes blobs := by
  induction blobs with
  | nil => intro off f h; simp [seqFiles] at h
  | cons b rest ih =>
    intro off f hmem
    obtain ⟨nm, bc⟩ := b
    rw [seqFiles] at hmem
    rw [sumSizes_cons]
    rcases List.mem_cons.mp hmem with heq | hmem'
    · subst heq
      exact ⟨⟨(nm, bc), by simp, rfl, rfl⟩, le_refl _, by simp⟩
    · obtain ⟨hp, h1, h2⟩ := ih (off + bc.length) f hmem'
      obtain ⟨p, hpmem, hpn, hps⟩ := hp
      exact ⟨⟨p, by simp [hpmem], hpn, hps⟩, by omega, by omega⟩

/-- Looking up a blob's name in the sequential layout yields its entry,
whose slice of the concatenated blob region is the blob itself. -/
theorem seqFiles_find_slice (blobs : List (List Nat × List Nat)) :
    ∀ (off : Nat) (nm bc : List Nat), (nm, bc) ∈ blobs →
    (blobs.map Prod.fst).Nodup →
    ∃ k, (seqFiles off blobs).find? (fun f => f.name = nm) =
        some { name := nm, offset := off + k, size := bc.length } ∧
      (((blobs.map (·.2)).flatten).drop k).take bc.length = bc ∧
      k + bc.length ≤ sumSizes blobs := by
  induction blobs with
  | nil => intro off nm bc h _; simp at h
  | cons b rest ih =>
    intro off nm bc hmem hnodup
    obtain ⟨nm0, bc0⟩ := b
    rw [seqFiles]
    rcases List.mem_cons.mp hmem with heq | hmem'
    · obtain ⟨rfl, rfl⟩ : nm0 = nm ∧ bc0 = bc := by
        have := heq
        simp [Prod.ext_iff] at this
        exact ⟨this.1.symm, this.2.symm⟩
      refine ⟨0, ?_, ?_, ?_⟩
      · rw [List.find?_cons_of_pos _ (by simp)]
        simp
      · simp only [List.map_cons, List.flatten_cons, List.drop_zero]
        exact List.take_left _ _
      · rw [sumSizes_cons]; omega
    · have hnodup' := hnodup
      rw [List.map_cons] at hnodup'
      have hne := (List.nodup_cons.mp hnodup').1
      have hnm0 : nm0 ≠ nm := by
        intro hcontra
        exact hne (by rw [hcontra]; exact List.mem_map.mpr ⟨(nm, bc), hmem', rfl⟩)
      obtain ⟨k', hfind, hslice, hbound⟩ :=
        ih (off + bc0.length) nm bc hmem' (List.nodup_cons.mp hnodup').2
      refine ⟨bc0.length + k', ?_, ?_, ?_⟩
      · rw [List.find?_cons_of_neg _ (by simp [hnm0])]
        rw [hfind]
        congr 2
        omega
      · simp only [List.map_cons, List.flatten_cons]
        rw [show bc0.length + k' = bc0.length + k' from rfl]
        rw [← List.drop_drop]
        rw [List.drop_left]
        exact hslice
      · rw [sumSizes_cons]; omega

/-- The index built by `lusB_buildindex` has the expected length. -/
theorem buildindex_length (v : Nat) (e : List Nat) (args : List (List Nat))
    (files : List LusBundleFile) :
    (lusB_buildindex v e args files).length =
      7 + e.length + (args.map (fun a => 2 + a.length)).sum +
        (files.map (fun f => 10 + f.name.length)).sum := by
  simp only [lusB_buildindex, List.length_append, List.length_cons,
    List.length_nil, List.length_flatten, List.map_map, toLE_length]
  have ha : (args.map (List.length ∘ fun a => toLE 2 a.length ++ a)) =
      args.map (fun a => 2 + a.length) := by
    apply List.map_congr_left
    intro a _
    simp [toLE_length]
  have hf : (files.map (List.length ∘ fun f => toLE 2 f.name.length ++ f.name
        ++ toLE 4 f.offset ++ toLE 4 f.size)) =
      files.map (fun f => 10 + f.name.length) := by
    apply List.map_congr_left
    intro f _
    simp [toLE_length]
    omega
  rw [ha, hf]

/-- Loading the bytes written by `create_standalone` parses back the
version, entrypoint, args and sequential file table, with `data_offset`
landing at the end of the executable image. -/
theorem bundle_load_eq (exe entrypoint : List Nat) (args : List (List Nat))
    (blobs : List (List Nat × List Nat))
    (hentry : entrypoint.length < LUSB_MAX_NAME)
    (hargsN : args.length ≤ LUSB_MAX_ARGS)
    (hargs : ∀ a ∈ args, a.length < 2 ^ 16)
    (hfilesN : blobs.length ≤ LUSB_MAX_FILES)
    (hnames : ∀ p ∈ blobs, p.1.length < LUSB_MAX_NAME)
    (hsizes : sumSizes blobs < 2 ^ 32) :
    lusB_load (bundleFile exe entrypoint args blobs) =
      some { version := LUSB_VERSION, entrypoint := entrypoint, args := args,
             files := seqFiles 0 blobs, data_offset := exe.length } := by
  have hnameB : ∀ f ∈ seqFiles 0 blobs, f.name.length < LUSB_MAX_NAME ∧
      f.offset < 2 ^ 32 ∧ f.size < 2 ^ 32 := by
    intro f hf
    obtain ⟨⟨p, hp, hpn, hpsz⟩, hlo, hhi⟩ := seqFiles_mem_bounds blobs 0 f hf
    refine ⟨?_, by omega, by omega⟩
    rw [hpn]
    exact hnames p hp
  have hsl : (seqFiles 0 blobs).length = blobs.length := seqFiles_length blobs 0
  have hargSum : (args.map (fun a => 2 + a.length)).sum ≤ args.length * 65537 := by
    have hb : ∀ x ∈ args.map (fun a => 2 + a.length), x ≤ 65537 := by
      intro x hx
      obtain ⟨a, ha, rfl⟩ := List.mem_map.mp hx
      have := hargs a ha
      omega
    have := List.sum_le_card_nsmul (args.map (fun a => 2 + a.length)) 65537 hb
    simpa [smul_eq_mul] using this
  have hfileSum : ((seqFiles 0 blobs).map (fun f => 10 + f.name.length)).sum ≤
      blobs.length * 266 := by
    have hb : ∀ x ∈ (seqFiles 0 blobs).map (fun f => 10 + f.name.length),
        x ≤ 266 := by
      intro x hx
      obtain ⟨f, hf, rfl⟩ := List.mem_map.mp hx
      have h1 : f.name.length < 256 := (hnameB f hf).1
      omega
    have := List.sum_le_card_nsmul
      ((seqFiles 0 blobs).map (fun f => 10 + f.name.length)) 266 hb
    simpa [smul_eq_mul, hsl] using this
  have hNeq := buildindex_length LUSB_VERSION entrypoint args (seqFiles 0 blobs)
  have hN32 : (lusB_buildindex LUSB_VERSION entrypoint args
      (seqFiles 0 blobs)).length < 2 ^ 32 := by
    rw [hNeq]
    have h1 : entrypoint.length < 256 := hentry
    have h2 : args.length ≤ 64 := hargsN
    have h3 : blobs.length ≤ 1024 := hfilesN
    omega
  have hNpos : 0 < (lusB_buildindex LUSB_VERSION entrypoint args
      (seqFiles 0 blobs)).length := by
    rw [hNeq]
    omega
  have hFlen : ((blobs.map (·.2)).flatten).length = sumSizes blobs :=
    flatten_blobs_length blobs
  have hTB : totalBytecode (seqFiles 0 blobs) = sumSizes blobs :=
    totalBytecode_seqFiles blobs
  have hfile : bundleFile exe entrypoint args blobs =
      ((exe ++ (blobs.map (·.2)).flatten) ++
        lusB_buildindex LUSB_VERSION entrypoint args (seqFiles 0 blobs)) ++
      (toLE 4 (lusB_buildindex LUSB_VERSION entrypoint args
          (seqFiles 0 blobs)).length ++ LUSB_MAGIC) := by
    simp [bundleFile, List.append_assoc]
  rw [hfile]
  generalize hG : lusB_buildindex LUSB_VERSION entrypoint args (seqFiles 0 blobs) = I
  rw [hG] at hN32 hNpos hNeq
  have hlen : (((exe ++ (blobs.map (·.2)).flatten) ++ I) ++
      (toLE 4 I.length ++ LUSB_MAGIC)).length =
      exe.length + sumSizes blobs + I.length + 8 := by
    simp only [List.length_append, toLE_length, LUSB_MAGIC, List.length_cons,
      List.length_nil, hFlen]
  have hclen : ((exe ++ (blobs.map (·.2)).flatten) ++ I).length =
      exe.length + sumSizes blobs + I.length := by
    simp only [List.length_append, hFlen]
  have hdropF : ((((exe ++ (blobs.map (·.2)).flatten) ++ I) ++
      (toLE 4 I.length ++ LUSB_MAGIC)).drop
        (exe.length + sumSizes blobs + I.length)) =
      toLE 4 I.length ++ LUSB_MAGIC :=
    List.drop_left' hclen
  have hdrop4 : (toLE 4 I.length ++ LUSB_MAGIC).drop 4 = LUSB_MAGIC :=
    List.drop_left' (toLE_length 4 _)
  have htake4 : (toLE 4 I.length ++ LUSB_MAGIC).take 4 = toLE 4 I.length :=
    List.take_left' (toLE_length 4 _)
  have hmod : I.length % 256 ^ 4 = I.length := by
    have h1 : (256 : Nat) ^ 4 = 2 ^ 32 := by norm_num
    rw [h1]
    exact Nat.mod_eq_of_lt hN32
  have heFlen : (exe ++ (blobs.map (·.2)).flatten).length =
      exe.length + sumSizes blobs := by
    simp only [List.length_append, hFlen]
  have hfile2 : (((exe ++ (blobs.map (·.2)).flatten) ++ I) ++
      (toLE 4 I.length ++ LUSB_MAGIC)) =
      (exe ++ (blobs.map (·.2)).flatten) ++
        (I ++ (toLE 4 I.length ++ LUSB_MAGIC)) := by
    simp [List.append_assoc]
  have hdropI : ((((exe ++ (blobs.map (·.2)).flatten) ++ I) ++
      (toLE 4 I.length ++ LUSB_MAGIC)).drop (exe.length + sumSizes blobs)) =
      I ++ (toLE 4 I.length ++ LUSB_MAGIC) := by
    rw [hfile2]
    exact List.drop_left' heFlen
  have htakeI : (I ++ (toLE 4 I.length ++ LUSB_MAGIC)).take I.length = I :=
    List.take_left _ _
  have hIstruct : I = 1 ::
      (toLE 2 args.length ++ (toLE 2 (seqFiles 0 blobs).length ++
        (toLE 2 entrypoint.length ++ (entrypoint ++
          ((args.map (fun a => toLE 2 a.length ++ a)).flatten ++
            ((seqFiles 0 blobs).map (fun f => toLE 2 f.name.length ++
              (f.name ++ (toLE 4 f.offset ++ toLE 4 f.size)))).flatten))))) := by
    rw [← hG]
    simp [lusB_buildindex, LUSB_VERSION, List.append_assoc]
  have h16a : args.length < 2 ^ 16 := by
    have h2 : args.length ≤ 64 := hargsN
    omega
  have h16f : (seqFiles 0 blobs).length < 2 ^ 16 := by
    have h3 : blobs.length ≤ 1024 := hfilesN
    omega
  have h16e : entrypoint.length < 2 ^ 16 := by
    have h1 : entrypoint.length < 256 := hentry
    omega
  unfold lusB_load
  rw [hlen]
  rw [if_neg (by omega)]
  simp only [Nat.add_sub_cancel]
  rw [hdropF, hdrop4]
  rw [if_neg (by simp)]
  rw [htake4, fromLE_toLE, hmod]
  rw [if_neg (by omega)]
  rw [Nat.add_sub_cancel, hdropI, htakeI]
  rw [hIstruct]
  rw [readU8]
  dsimp only
  rw [if_neg (by decide)]
  rw [readU16_toLE args.length _ h16a]
  dsimp only
  rw [readU16_toLE (seqFiles 0 blobs).length _ h16f]
  dsimp only
  rw [if_neg (by omega)]
  rw [readU16_toLE entrypoint.length _ h16e]
  dsimp only
  rw [if_neg (by omega)]
  rw [readChunk_exact entrypoint _]
  dsimp only
  rw [parseArgs_roundtrip args _ hargs]
  dsimp only
  have hpf := parseFiles_roundtrip (seqFiles 0 blobs) [] hnameB
  rw [List.append_nil] at hpf
  rw [hpf]
  dsimp only
  rw [hTB]
  simp only [Option.some.injEq, LusBundle.mk.injEq, LUSB_VERSION, true_and,
    and_true]
  omega

/-- C9: Bundle round-trip — building an index with `lusB_buildindex` over the
sequential blob layout, appending blobs, index and footer after an executable
image, then loading with `lusB_load` succeeds (with `data_offset` at the end of
the executable), and `lusB_getfile` on each module name returns exactly the
original bytecode bytes. -/
theorem bundle_roundtrip (exe entrypoint : List Nat) (args : List (List Nat))
    (blobs : List (List Nat × List Nat))
    (hentry : entrypoint.length < LUSB_MAX_NAME)
    (hargsN : args.length ≤ LUSB_MAX_ARGS)
    (hargs : ∀ a ∈ args, a.length < 2 ^ 16)
    (hfilesN : blobs.length ≤ LUSB_MAX_FILES)
    (hnames : ∀ p ∈ blobs, p.1.length < LUSB_MAX_NAME)
    (hsizes : sumSizes blobs < 2 ^ 32)
    (hnodup : (blobs.map Prod.fst).Nodup) :
    ∃ b, lusB_load (bundleFile exe entrypoint args blobs) = some b ∧
      b.entrypoint = entrypoint ∧ b.args = args ∧ b.data_offset = exe.length ∧
      ∀ nm bc, (nm, bc) ∈ blobs →
        lusB_getfile b (bundleFile exe entrypoint args blobs) nm = some bc := by
  refine ⟨_, bundle_load_eq exe entrypoint args blobs hentry hargsN hargs
    hfilesN hnames hsizes, rfl, rfl, rfl, ?_⟩
  intro nm bc hmem
  obtain ⟨k, hfind, hslice, hbound⟩ := seqFiles_find_slice blobs 0 nm bc hmem hnodup
  have hFlen : ((blobs.map (·.2)).flatten).length = sumSizes blobs :=
    flatten_blobs_length blobs
  have hfl : (bundleFile exe entrypoint args blobs).length =
      exe.length + sumSizes blobs +
        (lusB_buildindex LUSB_VERSION entrypoint args (seqFiles 0 blobs)).length
        + 8 := by
    simp only [bundleFile, List.length_append, toLE_length, LUSB_MAGIC,
      List.length_cons, List.length_nil, hFlen]
  have hshape : bundleFile exe entrypoint args blobs =
      exe ++ (((blobs.map (·.2)).flatten) ++
        (lusB_buildindex LUSB_VERSION entrypoint args (seqFiles 0 blobs) ++
          (toLE 4 (lusB_buildindex LUSB_VERSION entrypoint args
              (seqFiles 0 blobs)).length ++ LUSB_MAGIC))) := by
    simp [bundleFile, List.append_assoc]
  unfold lusB_getfile
  dsimp only
  rw [hfind]
  dsimp only
  rw [if_pos (by rw [hfl]; omega)]
  rw [Nat.zero_add]
  rw [hshape]
  rw [← List.drop_drop]
  rw [List.drop_left]
  rw [List.drop_append_of_le_length (by rw [hFlen]; omega)]
  rw [List.take_append_of_le_length (by rw [List.length_drop, hFlen]; omega)]
  rw [hslice]

theorem bundle_roundtrip_witness :
    (([109] : List Nat).length < LUSB_MAX_NAME ∧
      ([[5]] : List (List Nat)).length ≤ LUSB_MAX_ARGS ∧
      (∀ a ∈ ([[5]] : List (List Nat)), a.length < 2 ^ 16) ∧
      ([([109], [1, 2, 3]), ([110], [7])] :
        List (List Nat × List Nat)).length ≤ LUSB_MAX_FILES ∧
      (∀ p ∈ ([([109], [1, 2, 3]), ([110], [7])] :
        List (List Nat × List Nat)), p.1.length < LUSB_MAX_NAME) ∧
      sumSizes [([109], [1, 2, 3]), ([110], [7])] < 2 ^ 32 ∧
      (([([109], [1, 2, 3]), ([110], [7])] :
        List (List Nat × List Nat)).map Prod.fst).Nodup) ∧
    (∃ b, lusB_load (bundleFile [9, 9] [109] [[5]]
        [([109], [1, 2, 3]), ([110], [7])]) = some b ∧
      b.entrypoint = [109] ∧ b.args = [[5]] ∧ b.data_offset = 2 ∧
      ∀ nm bc, (nm, bc) ∈ ([([109], [1, 2, 3]), ([110], [7])] :
          List (List Nat × List Nat)) →
        lusB_getfile b (bundleFile [9, 9] [109] [[5]]
          [([109], [1, 2, 3]), ([110], [7])]) nm = some bc) :=
  ⟨⟨by decide, by decide, by decide, by decide, by decide, by decide, by decide⟩,
    bundle_roundtrip [9, 9] [109] [[5]] [([109], [1, 2, 3]), ([110], [7])]
      (by decide) (by decide) (by decide) (by decide) (by decide) (by decide)
      (by decide)⟩

end Lus
